import Mathlib

/-!
# PawQL ORM — shallow embedding and verification

A shallow embedding of the PawQL query builder (`src/query/builder.ts`),
the database facade (`src/core/database.ts`), the migration runner
(`src/migration/migrator.ts`) and the migration DDL helper
(`columnToSQL`), together with proofs and refutations of the frozen
specification claims.

Rendered SQL is modelled as a list of tokens: literal text pieces and
positional placeholders `$n`.  This is faithful to the string output of
the TypeScript renderer under the invariant that no text piece contains
a dollar sign followed by digits (identifiers and raw fragments are
assumed free of placeholder-shaped text; all placeholders produced by
the renderer are `.param` tokens).  The two regex operations of the
source — the global rewrite `/\$(\d+)/g` used for subquery rebasing and
the first-occurrence rewrite `/\$\d+/` used for HAVING renumbering —
become a map over `.param` tokens and a replacement of the first
`.param` token, which agree with the string semantics under that
invariant.
-/

namespace PawQL

/-- A runtime value handed to the driver as a query parameter.
`undefV` models JavaScript `undefined` (pushed by the INSERT renderer
when a row lacks a column of the first row); `arr` models an array
value pushed verbatim. -/
inductive Val where
  | int (n : Int)
  | str (s : String)
  | bool (b : Bool)
  | null
  | undefV
  | arr (vs : List Val)
deriving Repr

/-- One token of rendered SQL: a literal text piece or a positional
placeholder `$n`. -/
inductive SqlTok where
  | text (s : String)
  | param (n : Nat)
deriving Repr, DecidableEq

abbrev SQL := List SqlTok

/-- The sequence of placeholder indices occurring in the SQL, in textual
order. -/
def paramIdxs (s : SQL) : List Nat :=
  s.filterMap fun t => match t with | .param n => some n | .text _ => none

/-- `QueryBuilder._rebaseSubqueryParams`: rewrite every placeholder `$n`
to `$(n+offset)` (the source does `subSql.replace(/\$(\d+)/g, ...)`). -/
def rebaseToks (offset : Nat) (s : SQL) : SQL :=
  s.map fun t => match t with | .param n => .param (n + offset) | .text a => .text a

/-- `_buildHaving`'s per-value renumbering step: the source does
`cond.replace(/\$\d+/, newIdx)`, i.e. it replaces the FIRST placeholder
token, whatever its index. -/
def replaceFirstParam : SQL → Nat → SQL
  | [], _ => []
  | .param _ :: rest, n => .param n :: rest
  | .text a :: rest, n => .text a :: replaceFirstParam rest n

/-- `QueryBuilder._quote`: identifier quoting heuristic of the builder. -/
def quoteIdent (s : String) : String :=
  if s = "*" then s
  else if s.contains (Char.ofNat 40) || s.contains (Char.ofNat 32)
      || s.startsWith "\"" then s
  else if s.contains (Char.ofNat 46) then
    String.intercalate "." ((s.splitOn ".").map (fun part => "\"" ++ part ++ "\""))
  else "\"" ++ s ++ "\""

/-- The operation kind of a pending query (`_operation`). -/
inductive Operation where
  | select | insert | update | delete
deriving Repr, DecidableEq

/-- Connector of a WHERE clause (`type: "AND" | "OR"`). -/
inductive Conn where
  | and | or
deriving Repr, DecidableEq

def Conn.render : Conn → String
  | .and => "AND"
  | .or => "OR"

/-- WHERE operators of the builder (`WhereOperator`). -/
inductive WhereOp where
  | eq | ne | gt | lt | ge | le
  | like | ilike
  | inOp | notInOp
  | isOp | isNotOp
  | betweenOp
  | existsOp | notExistsOp
deriving Repr, DecidableEq

def WhereOp.render : WhereOp → String
  | .eq => "="
  | .ne => "!="
  | .gt => ">"
  | .lt => "<"
  | .ge => ">="
  | .le => "<="
  | .like => "LIKE"
  | .ilike => "ILIKE"
  | .inOp => "IN"
  | .notInOp => "NOT IN"
  | .isOp => "IS"
  | .isNotOp => "IS NOT"
  | .betweenOp => "BETWEEN"
  | .existsOp => "EXISTS"
  | .notExistsOp => "NOT EXISTS"

/-- JavaScript `String(value)` as used by the IS/IS NOT branch. -/
def Val.jsString : Val → String
  | .int n => toString n
  | .str s => s
  | .bool b => if b then "true" else "false"
  | .null => "null"
  | .undefV => "undefined"
  | .arr _ => ""

/-- A join record (`JoinClause`). -/
structure JoinClause where
  kind : String          -- "INNER" | "LEFT" | "RIGHT" | "FULL"
  table : String
  col1 : String
  op : String
  col2 : String
deriving Repr, DecidableEq

/-- An ORDER BY record (`OrderByClause`). -/
structure OrderByClause where
  column : String
  direction : String     -- "ASC" | "DESC"
deriving Repr, DecidableEq

/-- A HAVING record (`HavingClause`): a raw fragment (tokenised) plus
the values that fill its placeholders. -/
structure HavingClause where
  frag : SQL
  values : List Val
deriving Repr

/-- ON CONFLICT action (`OnConflictConfig.action` + `updateData`). -/
inductive OCAction where
  | doNothing
  | doUpdate (assigns : List (String × Val))
deriving Repr

/-- ON CONFLICT configuration (`OnConflictConfig`). -/
structure OnConflictCfg where
  columns : List String
  action : OCAction
deriving Repr

/-- `_data`: either absent, a single row/assignment object, or an array
of rows. -/
inductive InsData where
  | none
  | one (row : List (String × Val))
  | many (rows : List (List (String × Val)))
deriving Repr

/-- `_returning`: `false`, `true`, or a column list. -/
inductive Returning where
  | off | all | cols (cs : List String)
deriving Repr, DecidableEq

mutual
/-- The builder intermediate representation: the fields of
`QueryBuilder` (src/query/builder.ts). -/
inductive Builder where
  | mk
    (table : String)
    (operation : Operation)
    (data : InsData)
    (select : List String)
    (whereCs : List WhereC)
    (joins : List JoinClause)
    (orderBy : List OrderByClause)
    (groupBy : List String)
    (having : List HavingClause)
    (onConflict : Option OnConflictCfg)
    (fromSub : Option Subq)
    (limit : Option Nat)
    (offset : Option Nat)
    (returning : Returning)

/-- One WHERE record (`WhereClause`). -/
inductive WhereC where
  | mk (conn : Conn) (column : String) (op : WhereOp) (value : WhereV)

/-- The value slot of a WHERE record. -/
inductive WhereV where
  | scalar (v : Val)
  | nullv
  | list (vs : List Val)
  | sub (s : Subq)

/-- A subquery definition (`SubqueryDef`): a nested builder plus an
optional alias. -/
inductive Subq where
  | mk (builder : Builder) (alias? : Option String)
end

namespace Builder

def table : Builder → String
  | .mk t _ _ _ _ _ _ _ _ _ _ _ _ _ => t

def operation : Builder → Operation
  | .mk _ op _ _ _ _ _ _ _ _ _ _ _ _ => op

def data : Builder → InsData
  | .mk _ _ d _ _ _ _ _ _ _ _ _ _ _ => d

def selectCols : Builder → List String
  | .mk _ _ _ s _ _ _ _ _ _ _ _ _ _ => s

def whereCs : Builder → List WhereC
  | .mk _ _ _ _ w _ _ _ _ _ _ _ _ _ => w

def joins : Builder → List JoinClause
  | .mk _ _ _ _ _ j _ _ _ _ _ _ _ _ => j

def orderBy : Builder → List OrderByClause
  | .mk _ _ _ _ _ _ o _ _ _ _ _ _ _ => o

def groupBy : Builder → List String
  | .mk _ _ _ _ _ _ _ g _ _ _ _ _ _ => g

def having : Builder → List HavingClause
  | .mk _ _ _ _ _ _ _ _ h _ _ _ _ _ => h

def onConflict : Builder → Option OnConflictCfg
  | .mk _ _ _ _ _ _ _ _ _ oc _ _ _ _ => oc

def fromSub : Builder → Option Subq
  | .mk _ _ _ _ _ _ _ _ _ _ fs _ _ _ => fs

def limit : Builder → Option Nat
  | .mk _ _ _ _ _ _ _ _ _ _ _ l _ _ => l

def offset : Builder → Option Nat
  | .mk _ _ _ _ _ _ _ _ _ _ _ _ o _ => o

def returning : Builder → Returning
  | .mk _ _ _ _ _ _ _ _ _ _ _ _ _ r => r

/-- `new QueryBuilder(table, adapter)`: fresh builder, defaults as in
the field initialisers. -/
def init (table : String) : Builder :=
  .mk table .select .none [] [] [] [] [] [] Option.none Option.none
    Option.none Option.none .off

/-- `QueryBuilder.insert`: sets the operation, the data, and
`_returning = true`. -/
def insert : Builder → InsData → Builder
  | .mk t _ _ s w j o g h oc fs l off _, d =>
    .mk t .insert d s w j o g h oc fs l off .all

/-- `QueryBuilder.update`: sets the operation, the assignments, and
`_returning = true`. -/
def update : Builder → List (String × Val) → Builder
  | .mk t _ _ s w j o g h oc fs l off _, assigns =>
    .mk t .update (.one assigns) s w j o g h oc fs l off .all

/-- `QueryBuilder.delete`: sets the operation and `_returning = true`. -/
def delete : Builder → Builder
  | .mk t _ d s w j o g h oc fs l off _ =>
    .mk t .delete d s w j o g h oc fs l off .all

/-- `QueryBuilder.limit`. -/
def setLimit : Builder → Option Nat → Builder
  | .mk t op d s w j o g h oc fs _ off r, l =>
    .mk t op d s w j o g h oc fs l off r

/-- `QueryBuilder.having`: pushes a raw fragment with its values. -/
def havingAdd : Builder → HavingClause → Builder
  | .mk t op d s w j o g h oc fs l off r, hc =>
    .mk t op d s w j o g (h ++ [hc]) oc fs l off r

/-- Push one WHERE record (the output shape of `_addWhere`). -/
def whereAdd : Builder → WhereC → Builder
  | .mk t op d s w j o g h oc fs l off r, c =>
    .mk t op d s (w ++ [c]) j o g h oc fs l off r

/-- Internal helper of `count()`: overwrite projection and operation. -/
def setSelOp : Builder → List String → Operation → Builder
  | .mk t _ d _ w j o g h oc fs l off r, s, op =>
    .mk t op d s w j o g h oc fs l off r

end Builder

def WhereC.conn : WhereC → Conn
  | .mk cn _ _ _ => cn

def WhereC.column : WhereC → String
  | .mk _ col _ _ => col

def WhereC.op : WhereC → WhereOp
  | .mk _ _ o _ => o

def WhereC.value : WhereC → WhereV
  | .mk _ _ _ v => v

/-- The textual right-hand side of the IS / IS NOT branch:
`clause.value === null ? "NULL" : String(clause.value)`. -/
def WhereV.isText : WhereV → String
  | .nullv => "NULL"
  | .scalar v => v.jsString
  | .list vs => String.intercalate "," (vs.map Val.jsString)
  | .sub _ => ""

/-- The driver value pushed by the fall-through branch of
`_buildWhere` (`values.push(clause.value)`). -/
def WhereV.pushVal : WhereV → Val
  | .scalar v => v
  | .nullv => .null
  | .list vs => .arr vs
  | .sub _ => .undefV

/-- Interleave a separator token list between SQL fragments
(the token-level form of `Array.prototype.join`). -/
def joinSql (sep : SQL) : List SQL → SQL
  | [] => []
  | [x] => x
  | x :: rest => x ++ sep ++ joinSql sep rest

/-- `_buildJoins`: join fragments are pure text. -/
def buildJoins (js : List JoinClause) : SQL :=
  if js.isEmpty then []
  else
    [.text (" " ++ String.intercalate " " (js.map fun j =>
      j.kind ++ " JOIN " ++ quoteIdent j.table ++ " ON " ++
      quoteIdent j.col1 ++ " " ++ j.op ++ " " ++ quoteIdent j.col2))]

/-- `_buildGroupBy`. -/
def buildGroupBy (cols : List String) : SQL :=
  if cols.isEmpty then []
  else [.text (" GROUP BY " ++ String.intercalate ", " (cols.map quoteIdent))]

/-- `_buildOrderBy`. -/
def buildOrderBy (os : List OrderByClause) : SQL :=
  if os.isEmpty then []
  else
    [.text (" ORDER BY " ++ String.intercalate ", "
      (os.map fun o => quoteIdent o.column ++ " " ++ o.direction))]

/-- `_buildReturning`. -/
def buildReturning : Returning → SQL
  | .off => []
  | .all => [.text " RETURNING *"]
  | .cols cs =>
    if cs.isEmpty then [.text " RETURNING *"]
    else [.text (" RETURNING " ++ String.intercalate ", " (cs.map quoteIdent))]

/-- Placeholders for a non-empty IN/NOT IN list: each value is pushed
and yields the placeholder for the new length of the value vector
(`values.push(v); return "$" + values.length`), joined by `", "`. -/
def inPlaceholders : List Val → List Val → SQL × List Val
  | [], vals => ([], vals)
  | v :: rest, vals =>
    let vals1 := vals ++ [v]
    let r := inPlaceholders rest vals1
    (.param vals1.length ::
      (match rest with | [] => [] | _ :: _ => .text ", " :: r.1), r.2)

/-- SET-assignment fragments (`"col" = $n`), shared by UPDATE and
ON CONFLICT DO UPDATE, joined by `", "`. -/
def setClausesToks : List (String × Val) → List Val → SQL × List Val
  | [], vals => ([], vals)
  | (k, v) :: rest, vals =>
    let vals1 := vals ++ [v]
    let r := setClausesToks rest vals1
    (.text (quoteIdent k ++ " = ") :: .param vals1.length ::
      (match rest with | [] => [] | _ :: _ => .text ", " :: r.1), r.2)

/-- Row access of the INSERT renderer: the value of key `k` in the row,
JavaScript `undefined` when absent. -/
def lookupVal (row : List (String × Val)) (k : String) : Val :=
  match row.find? (fun kv => kv.1 = k) with
  | some kv => kv.2
  | none => .undefV

/-- The placeholders of one INSERT row, in the column order of the
first row. -/
def rowParams (row : List (String × Val)) : List String → List Val → SQL × List Val
  | [], vals => ([], vals)
  | k :: rest, vals =>
    let vals1 := vals ++ [lookupVal row k]
    let r := rowParams row rest vals1
    (.param vals1.length ::
      (match rest with | [] => [] | _ :: _ => .text ", " :: r.1), r.2)

/-- All INSERT rows: each row parenthesised, rows joined by `", "`,
values pushed row-major. -/
def insertRowsToks (keys : List String) :
    List (List (String × Val)) → List Val → SQL × List Val
  | [], vals => ([], vals)
  | row :: rest, vals =>
    let r1 := rowParams row keys vals
    let r2 := insertRowsToks keys rest r1.2
    ([.text "("] ++ r1.1 ++ [.text ")"] ++
      (match rest with | [] => [] | _ :: _ => [.text ", "]) ++ r2.1, r2.2)

/-- The inner loop of `_buildHaving`: for each value, push it and
replace the FIRST placeholder of the fragment with the new index. -/
def havingCondApply : List Val → SQL → List Val → SQL × List Val
  | [], cond, vals => (cond, vals)
  | v :: rest, cond, vals =>
    let vals1 := vals ++ [v]
    havingCondApply rest (replaceFirstParam cond vals1.length) vals1

/-- The per-clause map of `_buildHaving`. -/
def buildHavingParts : List HavingClause → List Val → List SQL × List Val
  | [], vals => ([], vals)
  | h :: rest, vals =>
    let r1 := havingCondApply h.values h.frag vals
    let r2 := buildHavingParts rest r1.2
    (r1.1 :: r2.1, r2.2)

/-- `_buildHaving`: parts joined with `" AND "` after `" HAVING "`. -/
def buildHaving (hs : List HavingClause) (vals : List Val) : SQL × List Val :=
  if hs.isEmpty then ([], vals)
  else
    let r := buildHavingParts hs vals
    ([.text " HAVING "] ++ joinSql [.text " AND "] r.1, r.2)

/-- The `LIMIT` fragment of `toSQL` (text only). -/
def limitTok : Option Nat → SQL
  | some n => [.text (" LIMIT " ++ toString n)]
  | Option.none => []

/-- The `OFFSET` fragment of `toSQL` (text only). -/
def offsetTok : Option Nat → SQL
  | some n => [.text (" OFFSET " ++ toString n)]
  | Option.none => []

/-- `_buildOnConflict`.  The source throws when DO UPDATE carries no
update data; in the embedding `doUpdate` always carries its
assignments, so the only shapes are the two below. -/
def buildOnConflict : Option OnConflictCfg → List Val → SQL × List Val
  | Option.none, vals => ([], vals)
  | some cfg, vals =>
    let cols := String.intercalate ", " (cfg.columns.map quoteIdent)
    match cfg.action with
    | .doNothing => ([.text (" ON CONFLICT (" ++ cols ++ ") DO NOTHING")], vals)
    | .doUpdate assigns =>
      let r := setClausesToks assigns vals
      ([.text (" ON CONFLICT (" ++ cols ++ ") DO UPDATE SET ")] ++ r.1, r.2)

mutual

/-- One condition of `_buildWhere`, mirroring its if/else chain:
subquery IN / NOT IN, EXISTS / NOT EXISTS, list IN / NOT IN (empty
lists become the constants `1=0` / `1=1`), textual IS / IS NOT,
BETWEEN, and the fall-through `col OP $n`.  `Option.none` models the
source throwing (invalid BETWEEN value) or crashing (EXISTS without a
subquery value; a subquery value reaching the fall-through branch). -/
def renderCond : WhereC → List Val → Option (SQL × List Val)
  | .mk _ column op value, vals =>
    let col := quoteIdent column
    match op, value with
    | .inOp, .sub (.mk sb _) =>
      match renderB sb with
      | Option.none => Option.none
      | some r =>
        some ([.text (col ++ " IN (")] ++ rebaseToks vals.length r.1 ++ [.text ")"],
          vals ++ r.2)
    | .notInOp, .sub (.mk sb _) =>
      match renderB sb with
      | Option.none => Option.none
      | some r =>
        some ([.text (col ++ " NOT IN (")] ++ rebaseToks vals.length r.1 ++ [.text ")"],
          vals ++ r.2)
    | .existsOp, .sub (.mk sb _) =>
      match renderB sb with
      | Option.none => Option.none
      | some r =>
        some ([.text "EXISTS ("] ++ rebaseToks vals.length r.1 ++ [.text ")"],
          vals ++ r.2)
    | .notExistsOp, .sub (.mk sb _) =>
      match renderB sb with
      | Option.none => Option.none
      | some r =>
        some ([.text "NOT EXISTS ("] ++ rebaseToks vals.length r.1 ++ [.text ")"],
          vals ++ r.2)
    | .existsOp, _ => Option.none
    | .notExistsOp, _ => Option.none
    | .inOp, .list (v :: vs) =>
      let r := inPlaceholders (v :: vs) vals
      some ([.text (col ++ " IN (")] ++ r.1 ++ [.text ")"], r.2)
    | .notInOp, .list (v :: vs) =>
      let r := inPlaceholders (v :: vs) vals
      some ([.text (col ++ " NOT IN (")] ++ r.1 ++ [.text ")"], r.2)
    | .inOp, _ => some ([.text "1=0"], vals)
    | .notInOp, _ => some ([.text "1=1"], vals)
    | .isOp, v => some ([.text (col ++ " IS " ++ v.isText)], vals)
    | .isNotOp, v => some ([.text (col ++ " IS NOT " ++ v.isText)], vals)
    | .betweenOp, .list [a, b] =>
      some ([.text (col ++ " BETWEEN "), .param (vals.length + 1),
             .text " AND ", .param (vals.length + 2)], vals ++ [a, b])
    | .betweenOp, _ => Option.none
    | _, .sub _ => Option.none
    | o, v =>
      some ([.text (col ++ " " ++ o.render ++ " "), .param (vals.length + 1)],
        vals ++ [v.pushVal])

/-- The tail of the clause map in `_buildWhere`: each non-first clause
is prefixed by its connector. -/
def buildWhereRest : List WhereC → List Val → Option (SQL × List Val)
  | [], vals => some ([], vals)
  | c :: rest, vals =>
    match renderCond c vals with
    | Option.none => Option.none
    | some r1 =>
      match buildWhereRest rest r1.2 with
      | Option.none => Option.none
      | some r2 =>
        some ([.text (" " ++ c.conn.render ++ " ")] ++ r1.1 ++ r2.1, r2.2)

/-- `_buildWhere`: empty clause list yields the empty string; otherwise
`" WHERE "` followed by the first condition and the connector-prefixed
rest. -/
def buildWhere : List WhereC → List Val → Option (SQL × List Val)
  | [], vals => some ([], vals)
  | c :: rest, vals =>
    match renderCond c vals with
    | Option.none => Option.none
    | some r1 =>
      match buildWhereRest rest r1.2 with
      | Option.none => Option.none
      | some r2 =>
        some ([.text " WHERE "] ++ r1.1 ++ r2.1, r2.2)

/-- `QueryBuilder.toSQL`.  `Option.none` models the `throw` branches of
the source (mutations with joins, INSERT/UPDATE without data or
columns, and the `renderCond` failures).  An UPDATE whose `_data` is an
array is unreachable through the API and is also mapped to
`Option.none`. -/
def renderB : Builder → Option (SQL × List Val)
  | .mk table operation data sel whereCs joins orderBy groupBy having oc fromSub lim off ret =>
    let columns := if sel.isEmpty then "*"
      else String.intercalate ", " (sel.map quoteIdent)
    let tq := quoteIdent table
    match operation with
    | .select =>
      let start : Option (SQL × List Val) :=
        match fromSub with
        | some (.mk sb al) =>
          match renderB sb with
          | Option.none => Option.none
          | some r =>
            some ([.text ("SELECT " ++ columns ++ " FROM (")] ++
              rebaseToks (List.length ([] : List Val)) r.1 ++
              [.text (") AS " ++ quoteIdent (al.getD "sub"))],
              ([] : List Val) ++ r.2)
        | Option.none => some ([.text ("SELECT " ++ columns ++ " FROM " ++ tq)], [])
      match start with
      | Option.none => Option.none
      | some r0 =>
        match buildWhere whereCs r0.2 with
        | Option.none => Option.none
        | some r1 =>
          let rh := buildHaving having r1.2
          some (r0.1 ++ buildJoins joins ++ r1.1 ++ buildGroupBy groupBy ++ rh.1 ++
            buildOrderBy orderBy ++ limitTok lim ++ offsetTok off, rh.2)
    | .insert =>
      if joins.isEmpty then
        match (match data with
               | .one row => [row]
               | .many rows => rows
               | .none => []) with
        | [] => Option.none
        | firstRow :: restRows =>
          match firstRow.map Prod.fst with
          | [] => Option.none
          | k :: ks =>
            let keys := k :: ks
            let quotedKeys := String.intercalate ", " (keys.map quoteIdent)
            let r1 := insertRowsToks keys (firstRow :: restRows) []
            let r2 := buildOnConflict oc r1.2
            some ([.text ("INSERT INTO " ++ tq ++ " (" ++ quotedKeys ++ ") VALUES ")] ++
              r1.1 ++ r2.1 ++ buildReturning ret, r2.2)
      else Option.none
    | .update =>
      if joins.isEmpty then
        match data with
        | .one [] => Option.none
        | .one (a :: assigns) =>
          let r1 := setClausesToks (a :: assigns) []
          match buildWhere whereCs r1.2 with
          | Option.none => Option.none
          | some r2 =>
            some ([.text ("UPDATE " ++ tq ++ " SET ")] ++ r1.1 ++ r2.1 ++
              buildReturning ret, r2.2)
        | _ => Option.none
      else Option.none
    | .delete =>
      if joins.isEmpty then
        match buildWhere whereCs [] with
        | Option.none => Option.none
        | some r1 =>
          some ([.text ("DELETE FROM " ++ tq)] ++ r1.1 ++ buildReturning ret, r1.2)
      else Option.none

end

/-- `QueryBuilder.count()`: saves `_select` and `_operation`, overwrites
them, builds `SELECT COUNT(*)` from only the table, the joins and the
WHERE predicates, then restores the two saved fields.  The second
component is the builder state after the call; when the WHERE build
fails (a subquery `toSQL` throw), the source never reaches its restore
lines, so the mutated state is returned. -/
def countRender (b : Builder) : Option (SQL × List Val) × Builder :=
  let savedSelect := b.selectCols
  let savedOperation := b.operation
  let b1 := b.setSelOp [] .select
  let sql0 : SQL := [.text ("SELECT COUNT(*) FROM " ++ quoteIdent b1.table)]
  match buildWhere b1.whereCs [] with
  | Option.none => (Option.none, b1)
  | some r =>
    (some (sql0 ++ buildJoins b1.joins ++ r.1, r.2),
     b1.setSelOp savedSelect savedOperation)

/-- `QueryBuilder.first()`: permanently sets `_limit = 1`, then renders.
The pair is (render result, builder state after the call). -/
def firstRender (b : Builder) : Option (SQL × List Val) × Builder :=
  let b1 := b.setLimit (some 1)
  (renderB b1, b1)

/-- `result.rows[0] ?? null` of `first()`. -/
def firstPick {α : Type} (rows : List α) : Option α :=
  rows.head?

/-- A HAVING clause is renumbering-safe when it carries at most one
value and its fragment carries exactly as many placeholders as
values. -/
def havingClauseOk (h : HavingClause) : Bool :=
  decide (h.values.length ≤ 1) &&
  decide ((paramIdxs h.frag).length = h.values.length)

mutual

/-- Every HAVING clause of the builder (and of every nested subquery
builder) is renumbering-safe.  Outside this set the first-occurrence
renumbering of `_buildHaving` misassigns indices. -/
def havingOkB : Builder → Bool
  | .mk _ _ _ _ whereCs _ _ _ having _ fromSub _ _ _ =>
    having.all havingClauseOk &&
    havingOkW whereCs &&
    (match fromSub with
     | some (.mk sb _) => havingOkB sb
     | Option.none => true)

def havingOkW : List WhereC → Bool
  | [] => true
  | c :: rest => havingOkC c && havingOkW rest

def havingOkC : WhereC → Bool
  | .mk _ _ _ (.sub (.mk sb _)) => havingOkB sb
  | _ => true

end

/-! ## Soft-delete overlay (modelled from the spec) -/

/-- Modelled from the spec: the soft-delete overlay configuration.  The
overlay (`softDelete` option, `withTrashed`, `onlyTrashed`) is fully
documented (spec §4.3, docs/soft-delete.md) but its implementation is
absent from src/ — `QueryBuilder` carries no scope field and
`DatabaseOptions` no `softDelete` key — so the overlay is modelled here
from the spec's words: the set of covered table names and the timestamp
column name (default `deleted_at`). -/
structure SoftDeleteCfg where
  tables : List String
  column : String

/-- Modelled from the spec: `soft_delete_scope`, one of
`Default | IncludeAll | OnlyTrashed` (`withTrashed` sets `IncludeAll`,
`onlyTrashed` sets `OnlyTrashed`). -/
inductive SDScope where
  | dflt | includeAll | onlyTrashed
deriving Repr, DecidableEq

/-- A builder together with its soft-delete scope. -/
structure SDBuilder where
  base : Builder
  scope : SDScope

/-- Modelled from the spec (§4.3): the predicate list used when a
SELECT or a `count()` is assembled — for a covered table, `col IS NULL`
is appended as a final AND unless the scope is `IncludeAll` (nothing)
or `OnlyTrashed` (`col IS NOT NULL`). -/
def sdPredicates (cfg : Option SoftDeleteCfg) (table : String) (scope : SDScope)
    (cs : List WhereC) : List WhereC :=
  match cfg with
  | Option.none => cs
  | some c =>
    if table ∈ c.tables then
      match scope with
      | .dflt => cs ++ [.mk .and c.column .isOp .nullv]
      | .includeAll => cs
      | .onlyTrashed => cs ++ [.mk .and c.column .isNotOp .nullv]
    else cs

/-- Modelled from the spec: the overlay as a render-time pass — SELECT
renders with the injected predicates; other operations are untouched
(§4.3 injects only for SELECT and `count()`; `delete()` ignores the
overlay; plain UPDATE is not mentioned by the rules). -/
def overlayApply (cfg : Option SoftDeleteCfg) (sb : SDBuilder) : Builder :=
  match sb.base with
  | .mk t op d s w j o g h oc fs l off r =>
    if op = .select then
      .mk t op d s (sdPredicates cfg t sb.scope w) j o g h oc fs l off r
    else sb.base

/-- Modelled from the spec: rendering a builder under the overlay. -/
def renderSD (cfg : Option SoftDeleteCfg) (sb : SDBuilder) : Option (SQL × List Val) :=
  renderB (overlayApply cfg sb)

/-- Modelled from the spec: `count()` under the overlay — the count SQL
is built over the same injected predicate list. -/
def countRenderSD (cfg : Option SoftDeleteCfg) (sb : SDBuilder) :
    Option (SQL × List Val) × Builder :=
  match sb.base with
  | .mk t op d s w j o g h oc fs l off r =>
    countRender (.mk t op d s (sdPredicates cfg t sb.scope w) j o g h oc fs l off r)

/-- Number of `col IS NULL` predicates in a clause list. -/
def isNullCount (col : String) (cs : List WhereC) : Nat :=
  (cs.filter fun c =>
    decide (c.column = col) && decide (c.op = .isOp) &&
    (match c.value with | .nullv => true | _ => false)).length

/-- Number of `col IS NOT NULL` predicates in a clause list. -/
def isNotNullCount (col : String) (cs : List WhereC) : Nat :=
  (cs.filter fun c =>
    decide (c.column = col) && decide (c.op = .isNotOp) &&
    (match c.value with | .nullv => true | _ => false)).length

/-! ## Logger hook (`Database._wrapAdapter`) -/

/-- One recorded invocation of `logger.query(sql, params, durationMs)`. -/
structure LogCall (π : Type) where
  sql : String
  params : π
  elapsed : Nat
deriving Repr, DecidableEq

/-- `Database._wrapAdapter`'s `query` method: await the driver, then —
only when the await did not throw — invoke the logger once and return
the driver's result; a driver error propagates before the logger line
is reached.  The second component is the list of logger invocations
made by the call. -/
def wrapQuery {ρ ε π : Type} (drv : String → π → Except ε ρ) (elapsed : Nat)
    (sql : String) (ps : π) : Except ε ρ × List (LogCall π) :=
  match drv sql ps with
  | .ok r => (.ok r, [⟨sql, ps, elapsed⟩])
  | .error e => (.error e, [])

/-! ## Database handle and transaction facade (`src/core/database.ts`) -/

/-- An adapter handle: either a raw driver or a logger-wrapped one
(`_wrapAdapter`). -/
inductive AdapterH (L : Type) where
  | base (id : Nat)
  | wrapped (logger : L) (inner : AdapterH L)
deriving Repr

/-- `DatabaseOptions`. -/
structure DbOptions (L : Type) where
  logger : Option L

/-- The `Database` handle state: schema, adapter, optional logger. -/
structure Db (σ L : Type) where
  schema : σ
  adapter : AdapterH L
  logger : Option L

/-- The `Database` constructor:
`this._adapter = options?.logger ? this._wrapAdapter(adapter, options.logger) : adapter`;
`this._logger = options?.logger`. -/
def mkDatabase {σ L : Type} (schema : σ) (adapter : AdapterH L)
    (options : Option (DbOptions L)) : Db σ L :=
  match options with
  | some o =>
    match o.logger with
    | some lg => ⟨schema, .wrapped lg adapter, some lg⟩
    | Option.none => ⟨schema, adapter, Option.none⟩
  | Option.none => ⟨schema, adapter, Option.none⟩

/-- `Database.transaction`: the handle passed to the user callback is
`new Database(this._schema, trxAdapter)` — constructed with NO options
argument. -/
def txHandle {σ L : Type} (db : Db σ L) (trxAdapter : AdapterH L) : Db σ L :=
  mkDatabase db.schema trxAdapter Option.none

/-! ## DDL column rendering (`Database.createTables` and the migration
helper's `columnToSQL`) -/

/-- A column type descriptor: primitive constructors, `JsonType`,
`UuidType`, `EnumType(values)`, `ArrayType(itemType)`. -/
inductive ColType where
  | int | text | bool | timestamp | json | uuid
  | enumT (values : List String)
  | arrayT (item : ColType)
deriving Repr

/-- A default value accepted by the DDL renderer: string, number,
boolean, or a date (carried as its ISO string). -/
inductive DefVal where
  | str (s : String)
  | num (n : Int)
  | bool (b : Bool)
  | date (iso : String)
deriving Repr, DecidableEq

/-- A column definition; a bare constructor/type instance corresponds
to `nullable = false`, `primaryKey = false`, `default = none`. -/
structure ColDef where
  type : ColType
  nullable : Bool
  primaryKey : Bool
  default : Option DefVal
deriving Repr

/-- The SQL type token for a column type; `Option.none` models the
`throw` for unsupported types (array of non-scalar item). -/
def sqlTypeOf : ColType → Option String
  | .int => some "INTEGER"
  | .text => some "TEXT"
  | .bool => some "BOOLEAN"
  | .timestamp => some "TIMESTAMP"
  | .json => some "JSONB"
  | .uuid => some "UUID"
  | .enumT _ => some "TEXT"
  | .arrayT .int => some "INTEGER[]"
  | .arrayT .text => some "TEXT[]"
  | .arrayT .bool => some "BOOLEAN[]"
  | .arrayT .timestamp => some "TIMESTAMP[]"
  | .arrayT _ => Option.none

/-- `defaultValue.replace(/'/g, "''")` — used ONLY for string defaults. -/
def escSingleQuotes (s : String) : String :=
  String.join (s.toList.map fun c =>
    if c = Char.ofNat 39 then "''" else String.singleton c)

/-- The enum CHECK clause: `type.values.map(v => "'" + v + "'")` — the
values are emitted VERBATIM between single quotes, with no escaping. -/
def enumCheckClause (quotedCol : String) (values : List String) : String :=
  " CHECK (" ++ quotedCol ++ " IN (" ++
    String.intercalate ", " (values.map fun v => "'" ++ v ++ "'") ++ "))"

/-- The DEFAULT clause. -/
def defaultClause : Option DefVal → String
  | some (.str d) => " DEFAULT '" ++ escSingleQuotes d ++ "'"
  | some (.num n) => " DEFAULT " ++ toString n
  | some (.bool b) => " DEFAULT " ++ (if b then "TRUE" else "FALSE")
  | some (.date iso) => " DEFAULT '" ++ iso ++ "'"
  | Option.none => ""

/-- The common body of the two column renderers, parameterised by the
already-quoted column name: type, PRIMARY KEY, NOT NULL, enum CHECK
(skipped for an empty value list), DEFAULT. -/
def colBody (quoted : String) (col : ColDef) : Option String :=
  (sqlTypeOf col.type).map fun ty =>
    let s := quoted ++ " " ++ ty
    let s := if col.primaryKey then s ++ " PRIMARY KEY" else s
    let s := if !col.nullable && !col.primaryKey then s ++ " NOT NULL" else s
    let s := match col.type with
      | .enumT vs => if vs.length > 0 then s ++ enumCheckClause quoted vs else s
      | _ => s
    s ++ defaultClause col.default

/-- `columnToSQL` of the migration helper: the column name is always
wrapped in double quotes. -/
def columnToSQL (colName : String) (col : ColDef) : Option String :=
  colBody ("\"" ++ colName ++ "\"") col

/-- `Database._quote`: quote unless already starting with a quote
(`identifier.startsWith('"')`, modelled as the first character being a
double quote so that it evaluates in the kernel). -/
def dbQuote (identifier : String) : String :=
  if identifier.data.head? = some (Char.ofNat 34) then identifier
  else "\"" ++ identifier ++ "\""

/-- The column rendering inside `Database.createTables`, which quotes
via `Database._quote`. -/
def createTableColSQL (colName : String) (col : ColDef) : Option String :=
  colBody (dbQuote colName) col

/-! ## Migration runner (`Migrator.down`, src/migration/migrator.ts) -/

/-- A row of the tracking table (`MigrationRecord`, minus the
timestamp, which `down()` never reads). -/
structure MigRecord where
  id : Nat
  name : String
  batch : Nat
deriving Repr, DecidableEq

/-- An observable step of `down()`: running a module's `down(helper)`
or deleting a tracking row. -/
inductive MigEvent where
  | ranDown (name : String)
  | deletedRow (name : String)
deriving Repr, DecidableEq

/-- `getCurrentBatch`: `SELECT COALESCE(MAX("batch"), 0)`. -/
def maxBatch (recs : List MigRecord) : Nat :=
  recs.foldr (fun r acc => max r.batch acc) 0

/-- `ORDER BY "name" DESC` over the selected records. -/
def sortByNameDesc (recs : List MigRecord) : List MigRecord :=
  recs.insertionSort fun a b => b.name ≤ a.name

/-- `DELETE FROM t WHERE "name" = $1`. -/
def deleteByName (recs : List MigRecord) (n : String) : List MigRecord :=
  recs.filter fun r => r.name ≠ n

instance : IsTotal MigRecord (fun a b => b.name ≤ a.name) :=
  ⟨fun a b => le_total b.name a.name⟩

instance : IsTrans MigRecord (fun a b => b.name ≤ a.name) :=
  ⟨fun _ _ _ hab hbc => le_trans hbc hab⟩

/-- The loop body of `down()`: for each selected record, run the
module's `down`, delete the tracking row, and append the name to the
returned list.  Produces (rolled-back names, event trace, final
table). -/
def downLoop : List MigRecord → List MigRecord →
    List String × List MigEvent × List MigRecord
  | [], table => ([], [], table)
  | r :: rest, table =>
    let table1 := deleteByName table r.name
    let res := downLoop rest table1
    (r.name :: res.1, .ranDown r.name :: .deletedRow r.name :: res.2.1, res.2.2)

/-- `Migrator.down()` over an in-memory tracking table, with the SQL
statements it issues interpreted by their standard meaning: look up the
maximum batch (empty table rolls back nothing), select that batch's
records ordered by name descending, then run the loop. -/
def migratorDown (recs : List MigRecord) :
    List String × List MigEvent × List MigRecord :=
  let cb := maxBatch recs
  if cb = 0 then ([], [], recs)
  else downLoop (sortByNameDesc (recs.filter fun r => r.batch = cb)) recs

/-! ## Specification predicates and concrete instances -/

/-- Parameter safety of a rendering step: the value vector is extended,
and the placeholder indices of the emitted tokens are exactly the
indices of the appended values, consecutively and in textual order. -/
def ParamSafe (vals : List Val) (toks : SQL) (vals' : List Val) : Prop :=
  ∃ extra, vals' = vals ++ extra ∧
    paramIdxs toks = List.range' (vals.length + 1) extra.length

/-- A WHERE record embeds `inner` as a rendered subquery: its value
slot is a subquery and its operator is one of the four that render the
nested builder (`IN`, `NOT IN`, `EXISTS`, `NOT EXISTS` — the forms
`_addWhere` and `_buildWhere` produce and consume). -/
def embedsSub (c : WhereC) (inner : Builder) : Prop :=
  (c.op = .inOp ∨ c.op = .notInOp ∨ c.op = .existsOp ∨ c.op = .notExistsOp) ∧
  ∃ a, c.value = .sub (.mk inner a)

/-- The outer builder embeds `inner` via `subquery`: either through a
WHERE record (on an operation that renders its WHERE clause) or as the
FROM source of a SELECT. -/
def Embeds (outer inner : Builder) : Prop :=
  ((outer.operation = .select ∨ outer.operation = .update ∨
      outer.operation = .delete) ∧
    ∃ c ∈ outer.whereCs, embedsSub c inner) ∨
  (outer.operation = .select ∧ ∃ a, outer.fromSub = some (.mk inner a))

/-- A two-value HAVING call:
`having("COUNT(*) > $1 AND SUM(total) > $2", 2, 500)`. -/
def having2 : HavingClause :=
  ⟨[.text "COUNT(*) > ", .param 1, .text " AND SUM(total) > ", .param 2],
   [.int 2, .int 500]⟩

/-- Concrete builder refuting C1:
`query("orders").having("COUNT(*) > $1 AND SUM(total) > $2", 2, 500)`. -/
def c1CexBuilder : Builder :=
  (Builder.init "orders").havingAdd having2

/-- Concrete inner builder:
`query("orders").select("userId").where({status: "completed"})`. -/
def c2Inner : Builder :=
  ((Builder.init "orders").setSelOp ["userId"] .select).whereAdd
    (.mk .and "status" .eq (.scalar (.str "completed")))

/-- Concrete outer builder refuting C2: embeds `c2Inner` via an `IN`
subquery and also carries a two-value HAVING call. -/
def c2CexBuilder : Builder :=
  (((Builder.init "users").whereAdd
      (.mk .and "id" .inOp (.sub (.mk c2Inner Option.none)))).havingAdd having2)

/-- Concrete outer builder for the C2 witness: the same embedding with
a well-formed single-value HAVING call. -/
def c2WitnessOuter : Builder :=
  (((Builder.init "users").whereAdd
      (.mk .and "id" .inOp (.sub (.mk c2Inner Option.none)))).havingAdd
    ⟨[.text "COUNT(*) > ", .param 1], [.int 5]⟩)

/-- Concrete builder witnessing the amended C1:
`query("users").where({id: 1, status: {in: ["a","b"]}, age: {between: [18, 60]}})
  .groupBy("id").having("COUNT(*) > $1", 5).orderBy("id").limit(10)`. -/
def c1WitnessBuilder : Builder :=
  ((((((Builder.init "users").whereAdd
      (.mk .and "id" .eq (.scalar (.int 1)))).whereAdd
      (.mk .and "status" .inOp (.list [.str "a", .str "b"]))).whereAdd
      (.mk .and "age" .betweenOp (.list [.int 18, .int 60]))).havingAdd
      ⟨[.text "COUNT(*) > ", .param 1], [.int 5]⟩).setLimit (some 10))

/-- Concrete multi-row upsert witnessing the amended C1 on mutations:
`insert([{id:1,name:"A"},{id:2,name:"B"}]).onConflict("id").doUpdate({name:"Z"})`. -/
def c1InsertWitness : Builder :=
  match (Builder.init "users").insert
      (.many [[("id", .int 1), ("name", .str "A")],
              [("id", .int 2), ("name", .str "B")]]) with
  | .mk t op d s w j o g h _ fs l off r =>
    .mk t op d s w j o g h (some ⟨["id"], .doUpdate [("name", .str "Z")]⟩) fs l off r

/-- Two builders agreeing on table, joins and WHERE but differing in
projection, ORDER BY, LIMIT and HAVING (used for the C9 frame
property). -/
def c9BuilderA : Builder :=
  (Builder.init "users").whereAdd (.mk .and "id" .gt (.scalar (.int 5)))

/-- See `c9BuilderA`. -/
def c9BuilderB : Builder :=
  ((((Builder.init "users").whereAdd
      (.mk .and "id" .gt (.scalar (.int 5)))).setSelOp ["name"] .select).havingAdd
      ⟨[.text "COUNT(*) > ", .param 1], [.int 1]⟩).setLimit (some 3)

/-- Concrete builder with an earlier limit (used for C10):
`query("users").limit(50)`. -/
def c10Builder : Builder :=
  (Builder.init "users").setLimit (some 50)

/-- A concrete soft-delete configuration covering `users`. -/
def sdCfgUsers : SoftDeleteCfg := ⟨["users"], "deleted_at"⟩

/-- Concrete UPDATE builder on a covered table (used against C3):
`query("users").update({name: "Bob"}).where({id: 1})`. -/
def c3UpdateBuilder : Builder :=
  ((Builder.init "users").update [("name", .str "Bob")]).whereAdd
    (.mk .and "id" .eq (.scalar (.int 1)))

/-- Concrete SELECT builder on a covered table:
`query("users").where({id: 1})`. -/
def c3SelectBuilder : Builder :=
  (Builder.init "users").whereAdd (.mk .and "id" .eq (.scalar (.int 1)))

/-- A concrete driver that always fails (used against C4). -/
def c4FailingDriver : String → List Val → Except Nat Nat :=
  fun _ _ => .error 7

/-- A concrete driver that always succeeds. -/
def c4OkDriver : String → List Val → Except Nat Nat :=
  fun _ _ => .ok 1

/-- A concrete parent handle carrying a logger (used against C5). -/
def c5Parent : Db Nat Nat := mkDatabase 0 (.base 0) (some ⟨some 7⟩)

/-- Concrete double-operation chain (used against C6):
`query("users").insert({id: 1, name: "Alice"}).update({name: "Bob"})`. -/
def c6Chain : Builder :=
  ((Builder.init "users").insert (.one [("id", .int 1), ("name", .str "Alice")])).update
    [("name", .str "Bob")]

/-- Concrete enum column whose value carries a single quote (used
against C7): `enumType("it's")`. -/
def c7EnumCol : ColDef := ⟨.enumT ["it\x27s"], false, false, Option.none⟩

/-- Concrete tracking table for the C8 witness. -/
def c8Records : List MigRecord :=
  [⟨1, "20240101000000_a", 1⟩, ⟨2, "20240202000000_b", 2⟩,
   ⟨3, "20240203000000_c", 2⟩]

/-! ## Parameter-safety infrastructure -/

theorem paramIdxs_nil : paramIdxs [] = [] := rfl

theorem paramIdxs_append (s t : SQL) :
    paramIdxs (s ++ t) = paramIdxs s ++ paramIdxs t := by
  simp [paramIdxs]

theorem paramIdxs_text (s : String) : paramIdxs [SqlTok.text s] = [] := rfl

theorem paramIdxs_rebase (k : Nat) (s : SQL) :
    paramIdxs (rebaseToks k s) = (paramIdxs s).map (· + k) := by
  induction s with
  | nil => rfl
  | cons t rest ih =>
    cases t <;> simp [rebaseToks, paramIdxs, List.filterMap_cons] at ih ⊢ <;>
      simpa [rebaseToks, paramIdxs] using ih

theorem ParamSafe.nilTok (vals : List Val) : ParamSafe vals [] vals :=
  ⟨[], by simp, by simp [paramIdxs]⟩

theorem ParamSafe.textTok (vals : List Val) (s : String) :
    ParamSafe vals [.text s] vals :=
  ⟨[], by simp, by simp [paramIdxs]⟩

theorem ParamSafe.ofTextOnly {t : SQL} (vals : List Val)
    (h : paramIdxs t = []) : ParamSafe vals t vals :=
  ⟨[], by simp, by simp [h]⟩

theorem ParamSafe.push (vals : List Val) (v : Val) :
    ParamSafe vals [.param (vals.length + 1)] (vals ++ [v]) :=
  ⟨[v], rfl, by simp [paramIdxs]⟩

theorem ParamSafe.append {v0 v1 v2 : List Val} {t1 t2 : SQL}
    (h1 : ParamSafe v0 t1 v1) (h2 : ParamSafe v1 t2 v2) :
    ParamSafe v0 (t1 ++ t2) v2 := by
  obtain ⟨e1, rfl, hp1⟩ := h1
  obtain ⟨e2, rfl, hp2⟩ := h2
  refine ⟨e1 ++ e2, by simp, ?_⟩
  rw [paramIdxs_append, hp1, hp2, List.length_append, List.length_append]
  have h3 : v0.length + e1.length + 1 = (v0.length + 1) + e1.length := by omega
  rw [h3, List.range'_append_1, Nat.add_comm e2.length e1.length]

theorem ParamSafe.textPre {vals vals' : List Val} {t : SQL} (s : String)
    (h : ParamSafe vals t vals') : ParamSafe vals (.text s :: t) vals' := by
  have := (ParamSafe.textTok vals s).append h
  simpa using this

theorem ParamSafe.textPost {vals vals' : List Val} {t : SQL} (s : String)
    (h : ParamSafe vals t vals') : ParamSafe vals (t ++ [.text s]) vals' :=
  h.append (ParamSafe.textTok vals' s)

theorem ParamSafe.length_le {vals toks vals'} (h : ParamSafe vals toks vals') :
    vals.length ≤ vals'.length := by
  obtain ⟨e, rfl, -⟩ := h
  simp

/-! ## Specs of the standalone render helpers -/

theorem inPlaceholders_spec (vs : List Val) (vals : List Val) :
    ParamSafe vals (inPlaceholders vs vals).1 (inPlaceholders vs vals).2 := by
  induction vs generalizing vals with
  | nil => exact ParamSafe.nilTok vals
  | cons v rest ih =>
    have h1 : ParamSafe vals [.param (vals.length + 1)] (vals ++ [v]) :=
      ParamSafe.push vals v
    cases rest with
    | nil =>
      simpa [inPlaceholders] using h1
    | cons w ws =>
      have h2 := (ih (vals ++ [v])).textPre ", "
      have h3 := h1.append h2
      simpa [inPlaceholders] using h3

theorem setClausesToks_spec (assigns : List (String × Val)) (vals : List Val) :
    ParamSafe vals (setClausesToks assigns vals).1 (setClausesToks assigns vals).2 := by
  induction assigns generalizing vals with
  | nil => exact ParamSafe.nilTok vals
  | cons kv rest ih =>
    have h1 : ParamSafe vals [.param (vals.length + 1)] (vals ++ [kv.2]) :=
      ParamSafe.push vals kv.2
    cases rest with
    | nil =>
      have := h1.textPre (quoteIdent kv.1 ++ " = ")
      simpa [setClausesToks] using this
    | cons w ws =>
      have h2 := (ih (vals ++ [kv.2])).textPre ", "
      have h3 := (h1.append h2).textPre (quoteIdent kv.1 ++ " = ")
      simpa [setClausesToks] using h3

theorem rowParams_spec (row : List (String × Val)) (keys : List String)
    (vals : List Val) :
    ParamSafe vals (rowParams row keys vals).1 (rowParams row keys vals).2 := by
  induction keys generalizing vals with
  | nil => exact ParamSafe.nilTok vals
  | cons k rest ih =>
    have h1 : ParamSafe vals [.param (vals.length + 1)]
        (vals ++ [lookupVal row k]) := ParamSafe.push vals (lookupVal row k)
    cases rest with
    | nil => simpa [rowParams] using h1
    | cons w ws =>
      have h2 := (ih (vals ++ [lookupVal row k])).textPre ", "
      have h3 := h1.append h2
      simpa [rowParams] using h3

theorem insertRowsToks_spec (keys : List String)
    (rows : List (List (String × Val))) (vals : List Val) :
    ParamSafe vals (insertRowsToks keys rows vals).1 (insertRowsToks keys rows vals).2 := by
  induction rows generalizing vals with
  | nil => exact ParamSafe.nilTok vals
  | cons row rest ih =>
    have h1 := ((rowParams_spec row keys vals).textPre "(").textPost ")"
    cases rest with
    | nil =>
      have := h1.append (ParamSafe.nilTok _)
      simpa [insertRowsToks] using h1
    | cons r2 rs2 =>
      have h2 := (ih (rowParams row keys vals).2).textPre ", "
      have h3 := h1.append h2
      simpa [insertRowsToks] using h3

theorem buildOnConflict_spec (oc : Option OnConflictCfg) (vals : List Val) :
    ParamSafe vals (buildOnConflict oc vals).1 (buildOnConflict oc vals).2 := by
  match oc with
  | Option.none => exact ParamSafe.nilTok vals
  | some cfg =>
    match h : cfg.action with
    | .doNothing => simp [buildOnConflict, h]; exact ParamSafe.textTok vals _
    | .doUpdate assigns =>
      have := (setClausesToks_spec assigns vals).textPre
        (" ON CONFLICT (" ++ String.intercalate ", " (cfg.columns.map quoteIdent) ++
          ") DO UPDATE SET ")
      simpa [buildOnConflict, h] using this

theorem replaceFirstParam_single (frag : SQL) (n : Nat)
    (h : (paramIdxs frag).length = 1) :
    paramIdxs (replaceFirstParam frag n) = [n] := by
  induction frag with
  | nil => simp [paramIdxs] at h
  | cons t rest ih =>
    cases t with
    | param m =>
      have hrest : paramIdxs rest = [] := by
        simp only [paramIdxs, List.filterMap_cons, List.length_cons] at h
        have h0 : (List.filterMap (fun t => match t with
            | SqlTok.param n => some n | SqlTok.text _ => none) rest).length = 0 := by
          omega
        simpa [paramIdxs] using List.length_eq_zero.mp h0
      simp only [replaceFirstParam, paramIdxs, List.filterMap_cons]
      simp only [paramIdxs] at hrest
      simp [hrest]
    | text a =>
      simp only [paramIdxs, List.filterMap_cons] at h
      simp only [replaceFirstParam, paramIdxs, List.filterMap_cons]
      exact ih h

theorem havingCondApply_spec (hc : HavingClause) (vals : List Val)
    (hok : havingClauseOk hc = true) :
    ParamSafe vals (havingCondApply hc.values hc.frag vals).1
      (havingCondApply hc.values hc.frag vals).2 := by
  simp only [havingClauseOk, Bool.and_eq_true, decide_eq_true_eq] at hok
  obtain ⟨hle, hcount⟩ := hok
  match hv : hc.values with
  | [] =>
    rw [hv] at hcount
    simp only [List.length_nil] at hcount
    have hfrag : paramIdxs hc.frag = [] := List.length_eq_zero.mp hcount
    exact ParamSafe.ofTextOnly vals hfrag
  | [v] =>
    rw [hv] at hcount
    simp only [List.length_cons, List.length_nil] at hcount
    simp only [havingCondApply]
    refine ⟨[v], rfl, ?_⟩
    have := replaceFirstParam_single hc.frag (vals ++ [v]).length hcount
    simpa using this
  | v :: w :: ws =>
    rw [hv] at hle
    simp at hle

theorem buildHavingParts_spec (hs : List HavingClause) (vals : List Val)
    (hok : hs.all havingClauseOk = true) :
    ParamSafe vals (joinSql [.text " AND "] (buildHavingParts hs vals).1)
      (buildHavingParts hs vals).2 := by
  induction hs generalizing vals with
  | nil => exact ParamSafe.nilTok vals
  | cons h rest ih =>
    simp only [List.all_cons, Bool.and_eq_true] at hok
    obtain ⟨h1, h2⟩ := hok
    have hc := havingCondApply_spec h vals h1
    cases rest with
    | nil =>
      simpa [buildHavingParts, joinSql] using hc
    | cons h2c hs2 =>
      have hrest := ih (havingCondApply h.values h.frag vals).2 h2
      have := hc.append ((hrest.textPre " AND "))
      simp only [buildHavingParts, joinSql]
      simp only [buildHavingParts] at this hrest ⊢
      simpa using this

theorem buildHaving_spec (hs : List HavingClause) (vals : List Val)
    (hok : hs.all havingClauseOk = true) :
    ParamSafe vals (buildHaving hs vals).1 (buildHaving hs vals).2 := by
  match hs with
  | [] => exact ParamSafe.nilTok vals
  | h :: rest =>
    have := (buildHavingParts_spec (h :: rest) vals hok).textPre " HAVING "
    simpa [buildHaving] using this

theorem buildHaving_extends (hs : List HavingClause) (vals : List Val) :
    ∃ extra, (buildHaving hs vals).2 = vals ++ extra := by
  have key : ∀ (vsl : List Val) (frag : SQL) (vals0 : List Val),
      ∃ e, (havingCondApply vsl frag vals0).2 = vals0 ++ e := by
    intro vsl
    induction vsl with
    | nil => intro frag vals0; exact ⟨[], by simp [havingCondApply]⟩
    | cons v rest ih =>
      intro frag vals0
      obtain ⟨e, he⟩ := ih (replaceFirstParam frag (vals0 ++ [v]).length) (vals0 ++ [v])
      exact ⟨v :: e, by simpa [havingCondApply] using he⟩
  have parts : ∀ (l : List HavingClause) (vals0 : List Val),
      ∃ e, (buildHavingParts l vals0).2 = vals0 ++ e := by
    intro l
    induction l with
    | nil => intro vals0; exact ⟨[], by simp [buildHavingParts]⟩
    | cons h rest ih =>
      intro vals0
      obtain ⟨e1, he1⟩ := key h.values h.frag vals0
      obtain ⟨e2, he2⟩ := ih (havingCondApply h.values h.frag vals0).2
      refine ⟨e1 ++ e2, ?_⟩
      simp only [buildHavingParts]
      rw [he2, he1, List.append_assoc]
  match hs with
  | [] => exact ⟨[], by simp [buildHaving]⟩
  | h :: rest =>
    obtain ⟨e, he⟩ := parts (h :: rest) vals
    exact ⟨e, by simpa [buildHaving] using he⟩

theorem paramIdxs_buildJoins (js : List JoinClause) :
    paramIdxs (buildJoins js) = [] := by
  unfold buildJoins; split <;> rfl

theorem paramIdxs_buildGroupBy (cols : List String) :
    paramIdxs (buildGroupBy cols) = [] := by
  unfold buildGroupBy; split <;> rfl

theorem paramIdxs_buildOrderBy (os : List OrderByClause) :
    paramIdxs (buildOrderBy os) = [] := by
  unfold buildOrderBy; split <;> rfl

theorem paramIdxs_limitTok (l : Option Nat) : paramIdxs (limitTok l) = [] := by
  cases l <;> rfl

theorem paramIdxs_offsetTok (l : Option Nat) : paramIdxs (offsetTok l) = [] := by
  cases l <;> rfl

theorem paramIdxs_buildReturning (r : Returning) :
    paramIdxs (buildReturning r) = [] := by
  cases r with
  | off => rfl
  | all => rfl
  | cols cs =>
    unfold buildReturning
    split <;> first
    | rfl
    | (split <;> rfl)

theorem ParamSafe.rebase {si : SQL} {vi : List Val} (vals : List Val)
    (hp : paramIdxs si = List.range' 1 vi.length) :
    ParamSafe vals (rebaseToks vals.length si) (vals ++ vi) := by
  refine ⟨vi, rfl, ?_⟩
  rw [paramIdxs_rebase, hp]
  have hcomm : (List.range' 1 vi.length).map (· + vals.length)
      = (List.range' 1 vi.length).map (vals.length + ·) := by
    simp [Nat.add_comm]
  rw [hcomm, List.map_add_range']

theorem ParamSafe.between (vals : List Val) (s1 s2 : String) (a b : Val) :
    ParamSafe vals
      [.text s1, .param (vals.length + 1), .text s2, .param (vals.length + 2)]
      (vals ++ [a, b]) := by
  refine ⟨[a, b], rfl, ?_⟩
  simp only [paramIdxs, List.filterMap_cons, List.length_cons, List.length_nil]
  rw [show (0 : Nat) + 1 + 1 = 2 from rfl, show (2 : Nat) = 1 + 1 from rfl,
    List.range'_succ]
  simp [List.range'_one]

theorem ParamSafe.textParam (vals : List Val) (s : String) (v : Val) :
    ParamSafe vals [.text s, .param (vals.length + 1)] (vals ++ [v]) := by
  have := (ParamSafe.push vals v).textPre s
  simpa using this

end PawQL
namespace PawQL

mutual

theorem renderCond_spec (c : WhereC) (vals : List Val)
    (hok : havingOkC c = true) (toks : SQL) (vals' : List Val)
    (h : renderCond c vals = some (toks, vals')) : ParamSafe vals toks vals' := by
  match c with
  | .mk conn column .inOp (.sub (.mk sb a)) | .mk conn column .notInOp (.sub (.mk sb a))
  | .mk conn column .existsOp (.sub (.mk sb a))
  | .mk conn column .notExistsOp (.sub (.mk sb a)) =>
      simp only [renderCond] at h
      match hsb : renderB sb with
      | Option.none => rw [hsb] at h; simp at h
      | some r =>
        rw [hsb] at h
        dsimp only at h
        simp only [Option.some.injEq, Prod.mk.injEq] at h
        obtain ⟨rfl, rfl⟩ := h
        have hokb : havingOkB sb = true := by simpa [havingOkC] using hok
        obtain ⟨e, he, hp⟩ := renderB_spec sb hokb r.1 r.2 hsb
        rw [List.nil_append] at he
        subst he
        have hp' : paramIdxs r.1 = List.range' 1 r.2.length := by simpa using hp
        simpa using ((ParamSafe.rebase vals hp').textPost ")").textPre _
  | .mk conn column .existsOp (.scalar v) | .mk conn column .notExistsOp (.scalar v) =>
      simp [renderCond] at h
  | .mk conn column .existsOp .nullv | .mk conn column .notExistsOp .nullv =>
      simp [renderCond] at h
  | .mk conn column .existsOp (.list vs) | .mk conn column .notExistsOp (.list vs) =>
      simp [renderCond] at h
  | .mk conn column .inOp (.list (v :: vs)) | .mk conn column .notInOp (.list (v :: vs)) =>
      simp only [renderCond] at h
      simp only [Option.some.injEq, Prod.mk.injEq] at h
      obtain ⟨rfl, rfl⟩ := h
      simpa using ((inPlaceholders_spec (v :: vs) vals).textPost ")").textPre _
  | .mk conn column .inOp (.scalar v) | .mk conn column .notInOp (.scalar v) =>
      simp only [renderCond] at h
      simp only [Option.some.injEq, Prod.mk.injEq] at h
      obtain ⟨rfl, rfl⟩ := h
      exact ParamSafe.textTok vals _
  | .mk conn column .inOp .nullv | .mk conn column .notInOp .nullv =>
      simp only [renderCond] at h
      simp only [Option.some.injEq, Prod.mk.injEq] at h
      obtain ⟨rfl, rfl⟩ := h
      exact ParamSafe.textTok vals _
  | .mk conn column .inOp (.list []) | .mk conn column .notInOp (.list []) =>
      simp only [renderCond] at h
      simp only [Option.some.injEq, Prod.mk.injEq] at h
      obtain ⟨rfl, rfl⟩ := h
      exact ParamSafe.textTok vals _
  | .mk conn column .isOp v =>
      cases v <;>
        (simp only [renderCond] at h
         simp only [Option.some.injEq, Prod.mk.injEq] at h
         obtain ⟨rfl, rfl⟩ := h
         exact ParamSafe.textTok vals _)
  | .mk conn column .isNotOp v =>
      cases v <;>
        (simp only [renderCond] at h
         simp only [Option.some.injEq, Prod.mk.injEq] at h
         obtain ⟨rfl, rfl⟩ := h
         exact ParamSafe.textTok vals _)
  | .mk conn column .betweenOp (.scalar v) => simp [renderCond] at h
  | .mk conn column .betweenOp .nullv => simp [renderCond] at h
  | .mk conn column .betweenOp (.sub s) => simp [renderCond] at h
  | .mk conn column .betweenOp (.list []) => simp [renderCond] at h
  | .mk conn column .betweenOp (.list [a]) => simp [renderCond] at h
  | .mk conn column .betweenOp (.list [a, b]) =>
      simp only [renderCond] at h
      simp only [Option.some.injEq, Prod.mk.injEq] at h
      obtain ⟨rfl, rfl⟩ := h
      exact ParamSafe.between vals _ _ a b
  | .mk conn column .betweenOp (.list (a :: b :: cc :: rest)) => simp [renderCond] at h
  | .mk conn column .eq (.sub s) | .mk conn column .ne (.sub s)
  | .mk conn column .gt (.sub s) | .mk conn column .lt (.sub s)
  | .mk conn column .ge (.sub s) | .mk conn column .le (.sub s)
  | .mk conn column .like (.sub s) | .mk conn column .ilike (.sub s) =>
      simp [renderCond] at h
  | .mk conn column .eq (.scalar v) | .mk conn column .ne (.scalar v)
  | .mk conn column .gt (.scalar v) | .mk conn column .lt (.scalar v)
  | .mk conn column .ge (.scalar v) | .mk conn column .le (.scalar v)
  | .mk conn column .like (.scalar v) | .mk conn column .ilike (.scalar v) =>
      simp only [renderCond] at h
      simp only [Option.some.injEq, Prod.mk.injEq] at h
      obtain ⟨rfl, rfl⟩ := h
      exact ParamSafe.textParam vals _ _
  | .mk conn column .eq .nullv | .mk conn column .ne .nullv
  | .mk conn column .gt .nullv | .mk conn column .lt .nullv
  | .mk conn column .ge .nullv | .mk conn column .le .nullv
  | .mk conn column .like .nullv | .mk conn column .ilike .nullv =>
      simp only [renderCond] at h
      simp only [Option.some.injEq, Prod.mk.injEq] at h
      obtain ⟨rfl, rfl⟩ := h
      exact ParamSafe.textParam vals _ _
  | .mk conn column .eq (.list vs) | .mk conn column .ne (.list vs)
  | .mk conn column .gt (.list vs) | .mk conn column .lt (.list vs)
  | .mk conn column .ge (.list vs) | .mk conn column .le (.list vs)
  | .mk conn column .like (.list vs) | .mk conn column .ilike (.list vs) =>
      simp only [renderCond] at h
      simp only [Option.some.injEq, Prod.mk.injEq] at h
      obtain ⟨rfl, rfl⟩ := h
      exact ParamSafe.textParam vals _ _
termination_by sizeOf c

theorem buildWhereRest_spec (cs : List WhereC) (vals : List Val)
    (hok : havingOkW cs = true) (toks : SQL) (vals' : List Val)
    (h : buildWhereRest cs vals = some (toks, vals')) : ParamSafe vals toks vals' := by
  match cs with
  | [] =>
    simp only [buildWhereRest] at h
    simp only [Option.some.injEq, Prod.mk.injEq] at h
    obtain ⟨rfl, rfl⟩ := h
    exact ParamSafe.nilTok vals
  | c :: rest =>
    simp only [buildWhereRest] at h
    simp only [havingOkW, Bool.and_eq_true] at hok
    obtain ⟨hok1, hok2⟩ := hok
    match h1 : renderCond c vals with
    | Option.none => rw [h1] at h; simp at h
    | some r1 =>
      rw [h1] at h
      dsimp only at h
      match h2 : buildWhereRest rest r1.2 with
      | Option.none => rw [h2] at h; simp at h
      | some r2 =>
        rw [h2] at h
        dsimp only at h
        simp only [Option.some.injEq, Prod.mk.injEq] at h
        obtain ⟨rfl, rfl⟩ := h
        have s1 := renderCond_spec c vals hok1 r1.1 r1.2 h1
        have s2 := buildWhereRest_spec rest r1.2 hok2 r2.1 r2.2 h2
        simpa using (s1.append s2).textPre (" " ++ c.conn.render ++ " ")
termination_by sizeOf cs

theorem buildWhere_spec (cs : List WhereC) (vals : List Val)
    (hok : havingOkW cs = true) (toks : SQL) (vals' : List Val)
    (h : buildWhere cs vals = some (toks, vals')) : ParamSafe vals toks vals' := by
  match cs with
  | [] =>
    simp only [buildWhere] at h
    simp only [Option.some.injEq, Prod.mk.injEq] at h
    obtain ⟨rfl, rfl⟩ := h
    exact ParamSafe.nilTok vals
  | c :: rest =>
    simp only [buildWhere] at h
    simp only [havingOkW, Bool.and_eq_true] at hok
    obtain ⟨hok1, hok2⟩ := hok
    match h1 : renderCond c vals with
    | Option.none => rw [h1] at h; simp at h
    | some r1 =>
      rw [h1] at h
      dsimp only at h
      match h2 : buildWhereRest rest r1.2 with
      | Option.none => rw [h2] at h; simp at h
      | some r2 =>
        rw [h2] at h
        dsimp only at h
        simp only [Option.some.injEq, Prod.mk.injEq] at h
        obtain ⟨rfl, rfl⟩ := h
        have s1 := renderCond_spec c vals hok1 r1.1 r1.2 h1
        have s2 := buildWhereRest_spec rest r1.2 hok2 r2.1 r2.2 h2
        simpa using (s1.append s2).textPre " WHERE "
termination_by sizeOf cs

theorem renderB_spec (b : Builder) (hok : havingOkB b = true) (toks : SQL)
    (vals' : List Val) (h : renderB b = some (toks, vals')) :
    ParamSafe [] toks vals' := by
  match b with
  | .mk t .select d sel w j ob gb hv oc Option.none lim off ret =>
    rw [havingOkB.eq_def] at hok
    simp only [Bool.and_eq_true] at hok
    obtain ⟨⟨hokH, hokW⟩, hokF⟩ := hok
    simp only [renderB] at h
    match h1 : buildWhere w [] with
    | Option.none => rw [h1] at h; simp at h
    | some r1 =>
      rw [h1] at h
      dsimp only at h
      simp only [Option.some.injEq, Prod.mk.injEq] at h
      obtain ⟨rfl, rfl⟩ := h
      have s0 := ParamSafe.textTok ([] : List Val)
        ("SELECT " ++ (if sel.isEmpty then "*"
          else String.intercalate ", " (sel.map quoteIdent)) ++ " FROM " ++ quoteIdent t)
      have sJ := ParamSafe.ofTextOnly ([] : List Val) (paramIdxs_buildJoins j)
      have s1 := buildWhere_spec w [] hokW r1.1 r1.2 h1
      have sG := ParamSafe.ofTextOnly r1.2 (paramIdxs_buildGroupBy gb)
      have sH := buildHaving_spec hv r1.2 hokH
      have sO := ParamSafe.ofTextOnly (buildHaving hv r1.2).2 (paramIdxs_buildOrderBy ob)
      have sL := ParamSafe.ofTextOnly (buildHaving hv r1.2).2 (paramIdxs_limitTok lim)
      have sF := ParamSafe.ofTextOnly (buildHaving hv r1.2).2 (paramIdxs_offsetTok off)
      have := ((((((s0.append sJ).append s1).append sG).append sH).append sO).append
        sL).append sF
      simpa using this
  | .mk t .select d sel w j ob gb hv oc (some (.mk sb al)) lim off ret =>
    rw [havingOkB.eq_def] at hok
    simp only [Bool.and_eq_true] at hok
    obtain ⟨⟨hokH, hokW⟩, hokF⟩ := hok
    simp only [renderB] at h
    match hsb : renderB sb with
    | Option.none => rw [hsb] at h; simp at h
    | some r =>
      rw [hsb] at h
      dsimp only at h
      have hokb : havingOkB sb = true := by simpa using hokF
      obtain ⟨e, he, hp⟩ := renderB_spec sb hokb r.1 r.2 hsb
      rw [List.nil_append] at he
      subst he
      have hp' : paramIdxs r.1 = List.range' 1 r.2.length := by simpa using hp
      match h1 : buildWhere w (([] : List Val) ++ r.2) with
      | Option.none => rw [h1] at h; simp at h
      | some r1 =>
        rw [h1] at h
        dsimp only at h
        simp only [Option.some.injEq, Prod.mk.injEq] at h
        obtain ⟨rfl, rfl⟩ := h
        have s00 : ParamSafe ([] : List Val)
            (rebaseToks (List.length ([] : List Val)) r.1)
            (([] : List Val) ++ r.2) := ParamSafe.rebase ([] : List Val) hp'
        have s0 := (s00.textPost (") AS " ++ quoteIdent (al.getD "sub"))).textPre
          ("SELECT " ++ (if sel.isEmpty then "*"
            else String.intercalate ", " (sel.map quoteIdent)) ++ " FROM (")
        have sJ := ParamSafe.ofTextOnly (([] : List Val) ++ r.2) (paramIdxs_buildJoins j)
        have s1 := buildWhere_spec w (([] : List Val) ++ r.2) hokW r1.1 r1.2 h1
        have sG := ParamSafe.ofTextOnly r1.2 (paramIdxs_buildGroupBy gb)
        have sH := buildHaving_spec hv r1.2 hokH
        have sO := ParamSafe.ofTextOnly (buildHaving hv r1.2).2 (paramIdxs_buildOrderBy ob)
        have sL := ParamSafe.ofTextOnly (buildHaving hv r1.2).2 (paramIdxs_limitTok lim)
        have sF := ParamSafe.ofTextOnly (buildHaving hv r1.2).2 (paramIdxs_offsetTok off)
        have := ((((((s0.append sJ).append s1).append sG).append sH).append sO).append
          sL).append sF
        simpa using this
  | .mk t .insert d sel w j ob gb hv oc fs lim off ret =>
    rw [havingOkB.eq_def] at hok
    simp only [Bool.and_eq_true] at hok
    obtain ⟨⟨hokH, hokW⟩, hokF⟩ := hok
    simp only [renderB] at h
    split at h
    · split at h
      · simp at h
      · next firstRow restRows heqRows =>
        split at h
        · simp at h
        · next k ks heqKeys =>
          simp only [Option.some.injEq, Prod.mk.injEq] at h
          obtain ⟨rfl, rfl⟩ := h
          have sI := insertRowsToks_spec (k :: ks) (firstRow :: restRows) []
          have sC := buildOnConflict_spec oc
            (insertRowsToks (k :: ks) (firstRow :: restRows) []).2
          have sR := ParamSafe.ofTextOnly (buildOnConflict oc
            (insertRowsToks (k :: ks) (firstRow :: restRows) []).2).2
            (paramIdxs_buildReturning ret)
          have := ((sI.append sC).append sR).textPre
            ("INSERT INTO " ++ quoteIdent t ++ " (" ++
              String.intercalate ", " ((k :: ks).map quoteIdent) ++ ") VALUES ")
          simpa using this
    · simp at h
  | .mk t .update InsData.none sel w j ob gb hv oc fs lim off ret =>
    simp [renderB] at h
  | .mk t .update (InsData.many rows) sel w j ob gb hv oc fs lim off ret =>
    simp only [renderB] at h
    split at h <;> simp at h
  | .mk t .update (InsData.one []) sel w j ob gb hv oc fs lim off ret =>
    simp only [renderB] at h
    split at h <;> simp at h
  | .mk t .update (InsData.one (aa :: assigns)) sel w j ob gb hv oc fs lim off ret =>
    rw [havingOkB.eq_def] at hok
    simp only [Bool.and_eq_true] at hok
    obtain ⟨⟨hokH, hokW⟩, hokF⟩ := hok
    simp only [renderB] at h
    split at h
    · match h1 : buildWhere w (setClausesToks (aa :: assigns) []).2 with
      | Option.none => rw [h1] at h; simp at h
      | some r2 =>
        rw [h1] at h
        dsimp only at h
        simp only [Option.some.injEq, Prod.mk.injEq] at h
        obtain ⟨rfl, rfl⟩ := h
        have sS := setClausesToks_spec (aa :: assigns) []
        have s1 := buildWhere_spec w (setClausesToks (aa :: assigns) []).2 hokW r2.1 r2.2 h1
        have sR := ParamSafe.ofTextOnly r2.2 (paramIdxs_buildReturning ret)
        have := ((sS.append s1).append sR).textPre ("UPDATE " ++ quoteIdent t ++ " SET ")
        simpa using this
    · simp at h
  | .mk t .delete d sel w j ob gb hv oc fs lim off ret =>
    rw [havingOkB.eq_def] at hok
    simp only [Bool.and_eq_true] at hok
    obtain ⟨⟨hokH, hokW⟩, hokF⟩ := hok
    simp only [renderB] at h
    split at h
    · match h1 : buildWhere w [] with
      | Option.none => rw [h1] at h; simp at h
      | some r1 =>
        rw [h1] at h
        dsimp only at h
        simp only [Option.some.injEq, Prod.mk.injEq] at h
        obtain ⟨rfl, rfl⟩ := h
        have s1 := buildWhere_spec w [] hokW r1.1 r1.2 h1
        have sR := ParamSafe.ofTextOnly r1.2 (paramIdxs_buildReturning ret)
        have := (s1.append sR).textPre ("DELETE FROM " ++ quoteIdent t)
        simpa using this
    · simp at h
termination_by sizeOf b

end

end PawQL

namespace PawQL

/-! ## Support lemmas for subquery rebasing (C2) -/

theorem havingOkW_of_mem {cs : List WhereC} {c : WhereC} (hok : havingOkW cs = true)
    (hmem : c ∈ cs) : havingOkC c = true := by
  induction cs with
  | nil => cases hmem
  | cons d rest ih =>
    simp only [havingOkW, Bool.and_eq_true] at hok
    rcases List.mem_cons.mp hmem with rfl | hm
    · exact hok.1
    · exact ih hok.2 hm

theorem havingOkC_sub {conn : Conn} {col : String} {op : WhereOp} {inner : Builder}
    {a : Option String}
    (h : havingOkC (.mk conn col op (.sub (.mk inner a))) = true) :
    havingOkB inner = true := by
  simpa [havingOkC] using h

theorem renderCond_sub_output (c0 : WhereC) (inner : Builder)
    (hemb : embedsSub c0 inner) (vals : List Val) (si : SQL) (vi : List Val)
    (hi : renderB inner = some (si, vi)) (r1 : SQL × List Val)
    (h : renderCond c0 vals = some r1) : r1.2 = vals ++ vi := by
  obtain ⟨hop, a, hval⟩ := hemb
  match c0, hval with
  | .mk conn col op value, hval =>
    simp only [WhereC.op] at hop
    simp only [WhereC.value] at hval
    subst hval
    rcases hop with rfl | rfl | rfl | rfl <;>
      (simp only [renderCond] at h
       rw [hi] at h
       dsimp only at h
       simp only [Option.some.injEq] at h
       subst h
       rfl)

theorem buildWhereRest_sub_pos (cs : List WhereC) (vals : List Val)
    (hok : havingOkW cs = true) (inner : Builder) (c0 : WhereC)
    (hmem : c0 ∈ cs) (hemb : embedsSub c0 inner)
    (si : SQL) (vi : List Val) (hi : renderB inner = some (si, vi))
    (t : SQL) (v' : List Val) (h : buildWhereRest cs vals = some (t, v')) :
    ∃ k, k + vi.length ≤ v'.length := by
  induction cs generalizing vals t v' with
  | nil => cases hmem
  | cons c rest ih =>
    simp only [havingOkW, Bool.and_eq_true] at hok
    simp only [buildWhereRest] at h
    match h1 : renderCond c vals with
    | Option.none => rw [h1] at h; simp at h
    | some r1 =>
      rw [h1] at h
      dsimp only at h
      match h2 : buildWhereRest rest r1.2 with
      | Option.none => rw [h2] at h; simp at h
      | some r2 =>
        rw [h2] at h
        dsimp only at h
        simp only [Option.some.injEq, Prod.mk.injEq] at h
        obtain ⟨-, rfl⟩ := h
        rcases List.mem_cons.mp hmem with rfl | hm
        · have hout := renderCond_sub_output c0 inner hemb vals si vi hi r1 h1
          obtain ⟨e2, he2, -⟩ := buildWhereRest_spec rest r1.2 hok.2 r2.1 r2.2 h2
          refine ⟨vals.length, ?_⟩
          rw [he2, hout]
          simp
        · exact ih r1.2 hok.2 hm r2.1 r2.2 h2

theorem buildWhere_sub_pos (cs : List WhereC) (vals : List Val)
    (hok : havingOkW cs = true) (inner : Builder) (c0 : WhereC)
    (hmem : c0 ∈ cs) (hemb : embedsSub c0 inner)
    (si : SQL) (vi : List Val) (hi : renderB inner = some (si, vi))
    (t : SQL) (v' : List Val) (h : buildWhere cs vals = some (t, v')) :
    ∃ k, k + vi.length ≤ v'.length := by
  match cs, hmem with
  | c :: rest, hmem =>
    simp only [havingOkW, Bool.and_eq_true] at hok
    simp only [buildWhere] at h
    match h1 : renderCond c vals with
    | Option.none => rw [h1] at h; simp at h
    | some r1 =>
      rw [h1] at h
      dsimp only at h
      match h2 : buildWhereRest rest r1.2 with
      | Option.none => rw [h2] at h; simp at h
      | some r2 =>
        rw [h2] at h
        dsimp only at h
        simp only [Option.some.injEq, Prod.mk.injEq] at h
        obtain ⟨-, rfl⟩ := h
        rcases List.mem_cons.mp hmem with rfl | hm
        · have hout := renderCond_sub_output c0 inner hemb vals si vi hi r1 h1
          obtain ⟨e2, he2, -⟩ := buildWhereRest_spec rest r1.2 hok.2 r2.1 r2.2 h2
          refine ⟨vals.length, ?_⟩
          rw [he2, hout]
          simp
        · exact buildWhereRest_sub_pos rest r1.2 hok.2 inner c0 hm hemb si vi hi
            r2.1 r2.2 h2

theorem range'_isInfix {k m n : Nat} (h : k + m ≤ n) :
    (List.range' (k + 1) m).IsInfix (List.range' 1 n) := by
  refine ⟨List.range' 1 k, List.range' (k + 1 + m) (n - k - m), ?_⟩
  have h1 : k + 1 = 1 + k := by omega
  have h2 : 1 + k + m = 1 + (k + m) := by omega
  have h3 : n - k - m = n - (k + m) := by omega
  rw [h1, h2, h3, List.range'_append_1]
  rw [show 1 + (k + m) = 1 + (m + k) by omega, List.range'_append_1]
  congr 1
  omega

end PawQL

namespace PawQL

theorem renderB_embed_bound (outer inner : Builder) (hok : havingOkB outer = true)
    (hemb : Embeds outer inner) (s : SQL) (vs : List Val) (si : SQL) (vi : List Val)
    (ho : renderB outer = some (s, vs)) (hi : renderB inner = some (si, vi)) :
    ∃ k, k + vi.length ≤ vs.length := by
  match outer with
  | .mk t op d sel w j ob gb hv oc fs lim off ret =>
    rw [havingOkB.eq_def] at hok
    simp only [Bool.and_eq_true] at hok
    obtain ⟨⟨hokH, hokW⟩, hokF⟩ := hok
    rcases hemb with ⟨hops, c0, hc0mem, hc0⟩ | ⟨hopsel, a, hfs⟩
    · simp only [Builder.operation, Builder.whereCs] at hops hc0mem
      rcases hops with rfl | rfl | rfl
      · -- SELECT with the embedding WHERE record
        match fs with
        | Option.none =>
          simp only [renderB] at ho
          match h1 : buildWhere w [] with
          | Option.none => rw [h1] at ho; simp at ho
          | some r1 =>
            rw [h1] at ho
            dsimp only at ho
            simp only [Option.some.injEq, Prod.mk.injEq] at ho
            obtain ⟨-, rfl⟩ := ho
            obtain ⟨k, hk⟩ := buildWhere_sub_pos w [] hokW inner c0 hc0mem hc0
              si vi hi r1.1 r1.2 h1
            obtain ⟨e, he⟩ := buildHaving_extends hv r1.2
            refine ⟨k, ?_⟩
            rw [he]
            simp only [List.length_append]
            omega
        | some (.mk sb al) =>
          simp only [renderB] at ho
          match hsb : renderB sb with
          | Option.none => rw [hsb] at ho; simp at ho
          | some r =>
            rw [hsb] at ho
            dsimp only at ho
            match h1 : buildWhere w (([] : List Val) ++ r.2) with
            | Option.none => rw [h1] at ho; simp at ho
            | some r1 =>
              rw [h1] at ho
              dsimp only at ho
              simp only [Option.some.injEq, Prod.mk.injEq] at ho
              obtain ⟨-, rfl⟩ := ho
              obtain ⟨k, hk⟩ := buildWhere_sub_pos w (([] : List Val) ++ r.2) hokW
                inner c0 hc0mem hc0 si vi hi r1.1 r1.2 h1
              obtain ⟨e, he⟩ := buildHaving_extends hv r1.2
              refine ⟨k, ?_⟩
              rw [he]
              simp only [List.length_append]
              omega
      · -- UPDATE with the embedding WHERE record
        match d with
        | InsData.none => simp [renderB] at ho
        | InsData.many rows =>
          simp only [renderB] at ho
          split at ho <;> simp at ho
        | InsData.one [] =>
          simp only [renderB] at ho
          split at ho <;> simp at ho
        | InsData.one (aa :: assigns) =>
          simp only [renderB] at ho
          split at ho
          · match h1 : buildWhere w (setClausesToks (aa :: assigns) []).2 with
            | Option.none => rw [h1] at ho; simp at ho
            | some r2 =>
              rw [h1] at ho
              dsimp only at ho
              simp only [Option.some.injEq, Prod.mk.injEq] at ho
              obtain ⟨-, rfl⟩ := ho
              exact buildWhere_sub_pos w (setClausesToks (aa :: assigns) []).2 hokW
                inner c0 hc0mem hc0 si vi hi r2.1 r2.2 h1
          · simp at ho
      · -- DELETE with the embedding WHERE record
        simp only [renderB] at ho
        split at ho
        · match h1 : buildWhere w [] with
          | Option.none => rw [h1] at ho; simp at ho
          | some r1 =>
            rw [h1] at ho
            dsimp only at ho
            simp only [Option.some.injEq, Prod.mk.injEq] at ho
            obtain ⟨-, rfl⟩ := ho
            exact buildWhere_sub_pos w [] hokW inner c0 hc0mem hc0 si vi hi
              r1.1 r1.2 h1
        · simp at ho
    · -- FROM-subquery embedding
      simp only [Builder.operation] at hopsel
      simp only [Builder.fromSub] at hfs
      subst hopsel
      subst hfs
      simp only [renderB] at ho
      rw [hi] at ho
      dsimp only at ho
      match h1 : buildWhere w (([] : List Val) ++ vi) with
      | Option.none => rw [h1] at ho; simp at ho
      | some r1 =>
        rw [h1] at ho
        dsimp only at ho
        simp only [Option.some.injEq, Prod.mk.injEq] at ho
        obtain ⟨-, rfl⟩ := ho
        obtain ⟨e1, he1, -⟩ := buildWhere_spec w (([] : List Val) ++ vi) hokW
          r1.1 r1.2 h1
        obtain ⟨e2, he2⟩ := buildHaving_extends hv r1.2
        refine ⟨0, ?_⟩
        rw [he2, he1]
        simp

end PawQL

namespace PawQL

theorem havingOkB_of_embeds {outer inner : Builder} (hok : havingOkB outer = true)
    (hemb : Embeds outer inner) : havingOkB inner = true := by
  match outer with
  | .mk t op d sel w j ob gb hv oc fs lim off ret =>
    rw [havingOkB.eq_def] at hok
    simp only [Bool.and_eq_true] at hok
    obtain ⟨⟨hokH, hokW⟩, hokF⟩ := hok
    rcases hemb with ⟨hops, c0, hc0mem, hc0⟩ | ⟨hopsel, a, hfs⟩
    · simp only [Builder.whereCs] at hc0mem
      have hc := havingOkW_of_mem hokW hc0mem
      obtain ⟨hop, aa, hval⟩ := hc0
      match c0, hval with
      | .mk conn col op2 value, hval =>
        simp only [WhereC.value] at hval
        subst hval
        exact havingOkC_sub hc
    · simp only [Builder.fromSub] at hfs
      subst hfs
      simpa using hokF

end PawQL

namespace PawQL

/-! ## Claim C1 — parameter safety -/

/-- **C1 counterexample.**  The claim as frozen covers HAVING fragments
with "one or more" placeholder values.  For the builder
`query("orders").having("COUNT(*) > $1 AND SUM(total) > $2", 2, 500)`
the rendered SQL carries the placeholder sequence `[$2, $2]` while the
parameter vector has length 2: index 1 never occurs and index 2 occurs
twice, refuting the claim (the first-occurrence renumbering of
`_buildHaving` rewrites the same token twice). -/
theorem c1_counterexample :
    (renderB c1CexBuilder).map (fun r => (paramIdxs r.1, r.2.length)) =
      some ([2, 2], 2) ∧ [2, 2] ≠ List.range' 1 2 := by
  constructor
  · simp [c1CexBuilder, having2, Builder.init, Builder.havingAdd, renderB, buildWhere,
      buildJoins, buildGroupBy, buildHaving, buildHavingParts, havingCondApply,
      replaceFirstParam, buildOrderBy, limitTok, offsetTok, paramIdxs, joinSql]
  · decide

/-- **C1 (amended).**  Parameter safety: for every builder whose HAVING
clauses — in the builder itself and in every nested subquery builder —
carry at most one placeholder value each (and exactly as many
placeholders as values), the rendered output of `toSQL()` contains
exactly as many `$N` tokens as there are entries in the returned
parameter vector, and the indices `N` range over `{1,…,len(params)}`
exactly once, in increasing textual order — including builders using
WHERE predicates, multi-row INSERT, ON CONFLICT DO UPDATE, and
subqueries.  (The restriction on HAVING is forced by the
counterexample: two values in one fragment misassign indices.) -/
theorem c1_param_safety (b : Builder) (hok : havingOkB b = true)
    (s : SQL) (vs : List Val) (h : renderB b = some (s, vs)) :
    paramIdxs s = List.range' 1 vs.length := by
  obtain ⟨e, he, hp⟩ := renderB_spec b hok s vs h
  rw [List.nil_append] at he
  subst he
  simpa using hp

/-- Witness for `c1_param_safety` at the concrete builder
`c1WitnessBuilder` (WHERE with `=`, `IN`, `BETWEEN`, a one-value
HAVING, and LIMIT). -/
theorem c1_param_safety_witness :
    havingOkB c1WitnessBuilder = true ∧
    ∃ s vs, renderB c1WitnessBuilder = some (s, vs) ∧
      paramIdxs s = List.range' 1 vs.length := by
  have hok : havingOkB c1WitnessBuilder = true := by
    simp [c1WitnessBuilder, Builder.init, Builder.whereAdd, Builder.havingAdd,
      Builder.setLimit, havingOkB, havingOkW, havingOkC, havingClauseOk, paramIdxs]
  have hs : (renderB c1WitnessBuilder).isSome = true := by
    simp [c1WitnessBuilder, Builder.init, Builder.whereAdd, Builder.havingAdd,
      Builder.setLimit, renderB, buildWhere, buildWhereRest, renderCond, inPlaceholders,
      buildJoins, buildGroupBy, buildHaving, buildHavingParts, havingCondApply,
      replaceFirstParam, buildOrderBy, limitTok, offsetTok, joinSql]
  obtain ⟨⟨s, vs⟩, h⟩ := Option.isSome_iff_exists.mp hs
  exact ⟨hok, s, vs, h, c1_param_safety c1WitnessBuilder hok s vs h⟩

/-! ## Claim C2 — subquery rebasing -/

/-- **C2 counterexample.**  The claim quantifies over ANY outer builder
embedding an inner builder via `subquery`.  An outer builder that also
carries a two-value HAVING call renders the placeholder sequence
`[$1, $3, $2]` over 3 parameters: not strictly increasing, so the
claimed "strictly increasing contiguous sequence starting at 1" fails
even though the subquery itself is rebased correctly. -/
theorem c2_counterexample :
    Embeds c2CexBuilder c2Inner ∧
    (renderB c2CexBuilder).map (fun r => (paramIdxs r.1, r.2.length)) =
      some ([1, 3, 2], 3) ∧ [1, 3, 2] ≠ List.range' 1 3 := by
  refine ⟨?_, ?_, by decide⟩
  · left
    refine ⟨Or.inl rfl, .mk .and "id" .inOp (.sub (.mk c2Inner Option.none)), ?_, ?_⟩
    · simp [c2CexBuilder, Builder.init, Builder.whereAdd, Builder.havingAdd,
        Builder.whereCs]
    · exact ⟨Or.inl rfl, Option.none, rfl⟩
  · simp [c2CexBuilder, c2Inner, having2, Builder.init, Builder.whereAdd,
      Builder.havingAdd, Builder.setSelOp, renderB, buildWhere, buildWhereRest,
      renderCond, rebaseToks, buildJoins, buildGroupBy, buildHaving,
      buildHavingParts, havingCondApply, replaceFirstParam, buildOrderBy,
      limitTok, offsetTok, paramIdxs, joinSql]

/-- **C2 (amended).**  Subquery rebasing: for any outer builder
embedding an inner builder via `subquery` (in a rendered WHERE clause
or as the FROM source), provided every HAVING clause of the outer and
of all nested builders carries at most one placeholder value, rendering
takes the outer parameter count `k` at the point of embedding, rewrites
every placeholder `$n` of the inner SQL to `$(n+k)` and appends the
inner parameters to the outer vector in order, so that the placeholder
indices of the final SQL are the strictly increasing contiguous
sequence `1..len(params)` and the rebased inner indices
`k+1..k+len(inner)` form a contiguous subrange of it.  (The HAVING
restriction is forced by the counterexample.) -/
theorem c2_subquery_rebasing (outer inner : Builder)
    (hok : havingOkB outer = true) (hemb : Embeds outer inner)
    (s : SQL) (vs : List Val) (si : SQL) (vi : List Val)
    (ho : renderB outer = some (s, vs)) (hi : renderB inner = some (si, vi)) :
    paramIdxs s = List.range' 1 vs.length ∧
    paramIdxs si = List.range' 1 vi.length ∧
    ∃ k, k + vi.length ≤ vs.length ∧
      paramIdxs (rebaseToks k si) = List.range' (k + 1) vi.length ∧
      (paramIdxs (rebaseToks k si)).IsInfix (paramIdxs s) := by
  have hoki := havingOkB_of_embeds hok hemb
  obtain ⟨e, he, hp⟩ := renderB_spec outer hok s vs ho
  rw [List.nil_append] at he
  subst he
  have h1 : paramIdxs s = List.range' 1 vs.length := by simpa using hp
  obtain ⟨e2, he2, hp2⟩ := renderB_spec inner hoki si vi hi
  rw [List.nil_append] at he2
  subst he2
  have h2 : paramIdxs si = List.range' 1 vi.length := by simpa using hp2
  obtain ⟨k, hk⟩ := renderB_embed_bound outer inner hok hemb s vs si vi ho hi
  have hmap : paramIdxs (rebaseToks k si) = List.range' (k + 1) vi.length := by
    rw [paramIdxs_rebase, h2]
    have hc : (List.range' 1 vi.length).map (· + k)
        = (List.range' 1 vi.length).map (k + ·) := by
      simp [Nat.add_comm]
    rw [hc, List.map_add_range']
  refine ⟨h1, h2, k, hk, hmap, ?_⟩
  rw [hmap, h1]
  exact range'_isInfix hk

/-- Witness for `c2_subquery_rebasing` at the concrete pair
`c2WitnessOuter` / `c2Inner`. -/
theorem c2_subquery_rebasing_witness :
    havingOkB c2WitnessOuter = true ∧ Embeds c2WitnessOuter c2Inner ∧
    ∃ s vs si vi, renderB c2WitnessOuter = some (s, vs) ∧
      renderB c2Inner = some (si, vi) ∧
      paramIdxs s = List.range' 1 vs.length ∧
      paramIdxs si = List.range' 1 vi.length ∧
      ∃ k, k + vi.length ≤ vs.length ∧
        paramIdxs (rebaseToks k si) = List.range' (k + 1) vi.length ∧
        (paramIdxs (rebaseToks k si)).IsInfix (paramIdxs s) := by
  have hok : havingOkB c2WitnessOuter = true := by
    simp [c2WitnessOuter, c2Inner, Builder.init, Builder.whereAdd, Builder.havingAdd,
      Builder.setSelOp, havingOkB, havingOkW, havingOkC, havingClauseOk, paramIdxs]
  have hemb : Embeds c2WitnessOuter c2Inner := by
    left
    refine ⟨Or.inl rfl, .mk .and "id" .inOp (.sub (.mk c2Inner Option.none)), ?_, ?_⟩
    · simp [c2WitnessOuter, Builder.init, Builder.whereAdd, Builder.havingAdd,
        Builder.whereCs]
    · exact ⟨Or.inl rfl, Option.none, rfl⟩
  have hso : (renderB c2WitnessOuter).isSome = true := by
    simp [c2WitnessOuter, c2Inner, Builder.init, Builder.whereAdd, Builder.havingAdd,
      Builder.setSelOp, renderB, buildWhere, buildWhereRest, renderCond, rebaseToks,
      buildJoins, buildGroupBy, buildHaving, buildHavingParts, havingCondApply,
      replaceFirstParam, buildOrderBy, limitTok, offsetTok, joinSql]
  have hsi : (renderB c2Inner).isSome = true := by
    simp [c2Inner, Builder.init, Builder.whereAdd, Builder.setSelOp, renderB,
      buildWhere, buildWhereRest, renderCond, buildJoins, buildGroupBy, buildHaving,
      buildHavingParts, buildOrderBy, limitTok, offsetTok, joinSql]
  obtain ⟨⟨s, vs⟩, ho⟩ := Option.isSome_iff_exists.mp hso
  obtain ⟨⟨si, vi⟩, hi⟩ := Option.isSome_iff_exists.mp hsi
  obtain ⟨h1, h2, k, hk, hmap, hinf⟩ :=
    c2_subquery_rebasing c2WitnessOuter c2Inner hok hemb s vs si vi ho hi
  exact ⟨hok, hemb, s, vs, si, vi, ho, hi, h1, h2, k, hk, hmap, hinf⟩

end PawQL

namespace PawQL

/-! ## Claim C3 — soft-delete scoping (modelled from the spec) -/

theorem isNullCount_clean (col : String) (cs : List WhereC)
    (h : ∀ c ∈ cs, c.column ≠ col) : isNullCount col cs = 0 := by
  unfold isNullCount
  rw [List.filter_eq_nil_iff.mpr]
  · rfl
  · intro c hc
    simp [h c hc]

theorem isNotNullCount_clean (col : String) (cs : List WhereC)
    (h : ∀ c ∈ cs, c.column ≠ col) : isNotNullCount col cs = 0 := by
  unfold isNotNullCount
  rw [List.filter_eq_nil_iff.mpr]
  · rfl
  · intro c hc
    simp [h c hc]

/-- **C3 counterexample (spec-modelled).**  The overlay rules of the
spec (§4.3) inject predicates only for SELECT and `count()`; a plain
UPDATE on a covered table with the default scope therefore renders with
ZERO `deleted_at IS NULL` predicates, refuting the claim's "every …
UPDATE … contains exactly one". -/
theorem c3_counterexample :
    c3UpdateBuilder.table ∈ sdCfgUsers.tables ∧
    c3UpdateBuilder.operation = .update ∧
    overlayApply (some sdCfgUsers) ⟨c3UpdateBuilder, .dflt⟩ = c3UpdateBuilder ∧
    isNullCount sdCfgUsers.column
      (overlayApply (some sdCfgUsers) ⟨c3UpdateBuilder, .dflt⟩).whereCs = 0 := by
  refine ⟨by simp [c3UpdateBuilder, sdCfgUsers, Builder.table, Builder.init,
    Builder.update, Builder.whereAdd], rfl, rfl, ?_⟩
  simp [c3UpdateBuilder, sdCfgUsers, Builder.init, Builder.update, Builder.whereAdd,
    overlayApply, Builder.whereCs, isNullCount, WhereC.column, WhereC.op]

/-- **C3 (amended, spec-modelled).**  Soft-delete scoping for SELECT
and `count()` only: for a builder on a covered table whose own
predicates do not mention the soft-delete column, the predicate list
rendered by a SELECT (and used by `count()`, which builds over the same
injected list) contains with default scope exactly one
`col IS NULL` predicate and no `col IS NOT NULL`; with IncludeAll zero
of either; with OnlyTrashed exactly one `col IS NOT NULL` and no
`col IS NULL`.  (The claim's inclusion of plain UPDATE is dropped: the
spec's own rules inject nothing for UPDATE — see the counterexample.) -/
theorem c3_soft_delete_scoping (cfg : SoftDeleteCfg) (b : Builder) (scope : SDScope)
    (hcov : b.table ∈ cfg.tables)
    (hclean : ∀ c ∈ b.whereCs, c.column ≠ cfg.column) :
    (b.operation = .select →
      (overlayApply (some cfg) ⟨b, scope⟩).whereCs =
        sdPredicates (some cfg) b.table scope b.whereCs) ∧
    isNullCount cfg.column (sdPredicates (some cfg) b.table scope b.whereCs) =
      (match scope with | .dflt => 1 | .includeAll => 0 | .onlyTrashed => 0) ∧
    isNotNullCount cfg.column (sdPredicates (some cfg) b.table scope b.whereCs) =
      (match scope with | .dflt => 0 | .includeAll => 0 | .onlyTrashed => 1) := by
  have h0 := isNullCount_clean cfg.column b.whereCs hclean
  have h1 := isNotNullCount_clean cfg.column b.whereCs hclean
  refine ⟨?_, ?_, ?_⟩
  · intro hop
    match b, hop with
    | .mk t op d sel w j ob gb hv oc fs lim off ret, hop =>
      simp only [Builder.operation] at hop
      subst hop
      simp [overlayApply, Builder.whereCs, Builder.table]
  · match scope with
    | .dflt =>
      simp only [sdPredicates, if_pos hcov]
      unfold isNullCount at h0 ⊢
      rw [List.filter_append, List.length_append, h0]
      simp [WhereC.column, WhereC.op, WhereC.value]
    | .includeAll =>
      simp only [sdPredicates, if_pos hcov]
      exact h0
    | .onlyTrashed =>
      simp only [sdPredicates, if_pos hcov]
      unfold isNullCount at h0 ⊢
      rw [List.filter_append, List.length_append, h0]
      simp [WhereC.column, WhereC.op, WhereC.value]
  · match scope with
    | .dflt =>
      simp only [sdPredicates, if_pos hcov]
      unfold isNotNullCount at h1 ⊢
      rw [List.filter_append, List.length_append, h1]
      simp [WhereC.column, WhereC.op, WhereC.value]
    | .includeAll =>
      simp only [sdPredicates, if_pos hcov]
      exact h1
    | .onlyTrashed =>
      simp only [sdPredicates, if_pos hcov]
      unfold isNotNullCount at h1 ⊢
      rw [List.filter_append, List.length_append, h1]
      simp [WhereC.column, WhereC.op, WhereC.value]

/-- Witness for `c3_soft_delete_scoping` at the concrete configuration
`sdCfgUsers` and builder `c3SelectBuilder`, all three scopes. -/
theorem c3_soft_delete_scoping_witness :
    c3SelectBuilder.table ∈ sdCfgUsers.tables ∧
    isNullCount "deleted_at"
      (sdPredicates (some sdCfgUsers) "users" .dflt c3SelectBuilder.whereCs) = 1 ∧
    isNullCount "deleted_at"
      (sdPredicates (some sdCfgUsers) "users" .includeAll c3SelectBuilder.whereCs) = 0 ∧
    isNotNullCount "deleted_at"
      (sdPredicates (some sdCfgUsers) "users" .onlyTrashed c3SelectBuilder.whereCs) = 1 := by
  have hcov : c3SelectBuilder.table ∈ sdCfgUsers.tables := by
    simp [c3SelectBuilder, sdCfgUsers, Builder.table, Builder.init, Builder.whereAdd]
  have hclean : ∀ c ∈ c3SelectBuilder.whereCs, c.column ≠ sdCfgUsers.column := by
    intro c hc
    simp [c3SelectBuilder, Builder.init, Builder.whereAdd, Builder.whereCs] at hc
    subst hc
    simp [WhereC.column, sdCfgUsers]
  have ht : c3SelectBuilder.table = "users" := by
    simp [c3SelectBuilder, Builder.table, Builder.init, Builder.whereAdd]
  have hd := c3_soft_delete_scoping sdCfgUsers c3SelectBuilder .dflt hcov hclean
  have hi := c3_soft_delete_scoping sdCfgUsers c3SelectBuilder .includeAll hcov hclean
  have ho := c3_soft_delete_scoping sdCfgUsers c3SelectBuilder .onlyTrashed hcov hclean
  rw [ht] at hd hi ho
  exact ⟨hcov, hd.2.1, hi.2.1, ho.2.2⟩

/-! ## Claim C4 — logger transparency -/

/-- **C4 counterexample.**  With a driver call that fails, the wrapped
adapter of `_wrapAdapter` propagates the error but the logger is NOT
invoked: the `logger.query(...)` line sits after the `await`, not in a
`finally`, so "exactly once regardless of failure" is false. -/
theorem c4_counterexample :
    wrapQuery c4FailingDriver 5 "SELECT 1" ([] : List Val) = (.error 7, []) ∧
    ((wrapQuery c4FailingDriver 5 "SELECT 1" ([] : List Val)).2).length ≠ 1 := by
  exact ⟨rfl, by simp [wrapQuery, c4FailingDriver]⟩

/-- **C4 (amended).**  Logger transparency on success only: when the
driver call succeeds, the wrapped adapter invokes
`log(sql, params, elapsed)` exactly once and returns the driver's
result unchanged; when the driver call fails, the original error
propagates unchanged and the logger is not invoked. -/
theorem c4_logger_transparency {ρ ε π : Type} (drv : String → π → Except ε ρ)
    (t : Nat) (sql : String) (ps : π) :
    (∀ r, drv sql ps = .ok r →
      wrapQuery drv t sql ps = (.ok r, [⟨sql, ps, t⟩])) ∧
    (∀ e, drv sql ps = .error e →
      wrapQuery drv t sql ps = (.error e, [])) := by
  constructor <;> intro x hx <;> simp [wrapQuery, hx]

/-- Witness for `c4_logger_transparency` at a concrete succeeding and a
concrete failing driver. -/
theorem c4_logger_transparency_witness :
    wrapQuery c4OkDriver 5 "SELECT 1" ([] : List Val) =
      (.ok 1, [⟨"SELECT 1", [], 5⟩]) ∧
    wrapQuery c4FailingDriver 5 "SELECT 2" ([] : List Val) = (.error 7, []) := by
  constructor
  · exact (c4_logger_transparency c4OkDriver 5 "SELECT 1" ([] : List Val)).1 1 rfl
  · exact (c4_logger_transparency c4FailingDriver 5 "SELECT 2" ([] : List Val)).2 7 rfl

/-! ## Claim C5 — transaction handle inheritance -/

/-- **C5 counterexample.**  `Database.transaction` constructs the
transaction-scoped handle as `new Database(this._schema, trxAdapter)` —
with no options — so a parent carrying a logger yields a transaction
handle whose logger is absent: the overlay configuration is NOT
shared. -/
theorem c5_counterexample :
    c5Parent.logger = some 7 ∧
    (txHandle c5Parent (.base 1)).logger = Option.none ∧
    (txHandle c5Parent (.base 1)).logger ≠ c5Parent.logger := by
  exact ⟨rfl, rfl, by simp [txHandle, mkDatabase, c5Parent]⟩

/-- **C5 (amended).**  The transaction-scoped handle shares the
parent's schema and is bound to the transaction-local driver, but does
not inherit the parent's overlay configuration: it is constructed
without options, so its logger is always absent (and queries inside the
transaction bypass the parent's logger wrapping). -/
theorem c5_tx_handle {σ L : Type} (db : Db σ L) (trx : AdapterH L) :
    (txHandle db trx).schema = db.schema ∧
    (txHandle db trx).adapter = trx ∧
    (txHandle db trx).logger = Option.none :=
  ⟨rfl, rfl, rfl⟩

end PawQL

namespace PawQL

/-! ## Claim C6 — operation-selection rejection -/

/-- **C6 counterexample.**  No `ConfigurationError` exists in the code:
`insert`/`update`/`delete` unconditionally assign `_operation`.  The
chain `insert({id:1,name:"Alice"}).update({name:"Bob"})` silently
proceeds: the builder's operation becomes UPDATE and `toSQL()` renders
an UPDATE statement successfully. -/
theorem c6_counterexample :
    c6Chain.operation = .update ∧ (renderB c6Chain).isSome = true := by
  constructor
  · rfl
  · simp [c6Chain, Builder.init, Builder.insert, Builder.update, renderB,
      setClausesToks, buildWhere, buildJoins, buildReturning, limitTok, offsetTok]

/-- **C6 (amended).**  A second operation-setting call does not fail:
it silently overwrites the pending operation (and, for `insert` and
`update`, the pending data), so the latest call wins. -/
theorem c6_second_operation_overwrites (b : Builder) (d : InsData)
    (assigns : List (String × Val)) :
    ((b.insert d).update assigns).operation = .update ∧
    ((b.insert d).update assigns).data = .one assigns ∧
    ((b.update assigns).insert d).operation = .insert ∧
    ((b.update assigns).insert d).data = d ∧
    ((b.insert d).delete).operation = .delete ∧
    ((b.delete).insert d).operation = .insert := by
  match b with
  | .mk t op d0 s w j o g h oc fs l off r =>
    exact ⟨rfl, rfl, rfl, rfl, rfl, rfl⟩

/-! ## Claim C7 — enum CHECK rendering -/

theorem toList_append (a b : String) : (a ++ b).toList = a.toList ++ b.toList := by
  simp [String.toList, String.data_append]

theorem infix_mid (a b c : String) : b.toList.IsInfix (a ++ b ++ c).toList := by
  refine ⟨a.toList, c.toList, ?_⟩
  rw [toList_append, toList_append]

theorem infix_go_intercalate (sep : String) (l : List String) :
    ∀ acc : String,
      (∀ x ∈ l, x.toList.IsInfix (String.intercalate.go acc sep l).toList) ∧
      acc.toList.IsInfix (String.intercalate.go acc sep l).toList := by
  induction l with
  | nil =>
    intro acc
    refine ⟨?_, ?_⟩
    · intro x hx
      cases hx
    · exact List.infix_rfl
  | cons a as ih =>
    intro acc
    have hself : (acc ++ sep ++ a).toList.IsInfix
        (String.intercalate.go (acc ++ sep ++ a) sep as).toList := (ih (acc ++ sep ++ a)).2
    refine ⟨?_, ?_⟩
    · intro x hx
      rcases List.mem_cons.mp hx with rfl | hm
      · refine List.IsInfix.trans ?_ hself
        refine ⟨acc.toList ++ sep.toList, [], ?_⟩
        rw [toList_append, toList_append]
        simp
      · exact (ih (acc ++ sep ++ a)).1 x hm
    · refine List.IsInfix.trans ?_ hself
      refine ⟨[], sep.toList ++ a.toList, ?_⟩
      rw [toList_append, toList_append]
      simp

theorem infix_of_mem_intercalate {v : String} {l : List String} (sep : String)
    (h : v ∈ l) : v.toList.IsInfix (String.intercalate sep l).toList := by
  match l, h with
  | a :: as, hmem =>
    show v.toList.IsInfix (String.intercalate.go a sep as).toList
    rcases List.mem_cons.mp hmem with rfl | hm
    · exact (infix_go_intercalate sep as v).2
    · exact (infix_go_intercalate sep as a).1 v hm

/-- **C7 counterexample.**  For the enum value `it's`, the rendered
column SQL is `"role" TEXT NOT NULL CHECK ("role" IN ('it's'))`: the
embedded single quote is emitted verbatim, and no doubled quote `''`
occurs anywhere in the output — the claimed doubling does not happen
(only string DEFAULT literals are escaped, via a global quote-doubling
replace). -/
theorem c7_counterexample :
    columnToSQL "role" c7EnumCol =
      some "\"role\" TEXT NOT NULL CHECK (\"role\" IN ('it\x27s'))" ∧
    ¬ ("''".toList.IsInfix
        "\"role\" TEXT NOT NULL CHECK (\"role\" IN ('it\x27s'))".toList) := by
  constructor
  · rfl
  · decide

/-- **C7 (amended).**  Enum CHECK rendering: for every enum column, both
the `createTables` renderer and the migration helper's `columnToSQL`
emit the same column SQL, which contains the clause
`CHECK ("col" IN ('a', 'b', ...))` listing all allowed values — each
value emitted VERBATIM between single quotes, so embedded single quotes
are NOT doubled. -/
theorem c7_enum_check (name : String) (values : List String)
    (nullable pk : Bool) (dflt : Option DefVal)
    (hnq : ¬ name.data.head? = some (Char.ofNat 34)) (hne : values ≠ []) :
    columnToSQL name ⟨.enumT values, nullable, pk, dflt⟩ =
      createTableColSQL name ⟨.enumT values, nullable, pk, dflt⟩ ∧
    ∃ s, columnToSQL name ⟨.enumT values, nullable, pk, dflt⟩ = some s ∧
      (enumCheckClause ("\"" ++ name ++ "\"") values).toList.IsInfix s.toList ∧
      ∀ v ∈ values, ("'" ++ v ++ "'").toList.IsInfix s.toList := by
  have hq : dbQuote name = "\"" ++ name ++ "\"" := by
    unfold dbQuote
    rw [if_neg hnq]
  have hlen : values.length > 0 := by
    cases values with
    | nil => exact absurd rfl hne
    | cons a as => simp
  constructor
  · unfold columnToSQL createTableColSQL
    rw [hq]
  · unfold columnToSQL colBody
    simp only [sqlTypeOf, Option.map_some']
    dsimp only
    rw [if_pos hlen]
    refine ⟨_, rfl, ?_, ?_⟩
    · exact infix_mid _ _ _
    · intro v hv
      have hlit : ("'" ++ v ++ "'") ∈ values.map (fun x => "'" ++ x ++ "'") :=
        List.mem_map_of_mem _ hv
      have hcheck : ("'" ++ v ++ "'").toList.IsInfix
          (enumCheckClause ("\"" ++ name ++ "\"") values).toList :=
        List.IsInfix.trans (infix_of_mem_intercalate ", " hlit)
          (by unfold enumCheckClause; exact infix_mid _ _ _)
      exact List.IsInfix.trans hcheck (infix_mid _ _ _)

/-- Witness for `c7_enum_check` at a concrete enum column
`enumType("admin", "user")` named `role`. -/
theorem c7_enum_check_witness :
    columnToSQL "role" ⟨.enumT ["admin", "user"], false, false, Option.none⟩ =
      createTableColSQL "role" ⟨.enumT ["admin", "user"], false, false, Option.none⟩ ∧
    ∃ s, columnToSQL "role" ⟨.enumT ["admin", "user"], false, false, Option.none⟩ =
        some s ∧
      (enumCheckClause "\"role\"" ["admin", "user"]).toList.IsInfix s.toList ∧
      ∀ v ∈ ["admin", "user"], ("'" ++ v ++ "'").toList.IsInfix s.toList := by
  have h := c7_enum_check "role" ["admin", "user"] false false Option.none
    (by decide) (by decide)
  exact h

end PawQL

namespace PawQL

/-! ## Claim C8 — migration rollback order -/

theorem downLoop_names (l table : List MigRecord) :
    (downLoop l table).1 = l.map (·.name) := by
  induction l generalizing table with
  | nil => rfl
  | cons r rest ih => simp [downLoop, ih]

theorem downLoop_trace (l table : List MigRecord) :
    (downLoop l table).2.1 =
      (l.map (·.name)).flatMap (fun n => [.ranDown n, .deletedRow n]) := by
  induction l generalizing table with
  | nil => rfl
  | cons r rest ih => simp [downLoop, ih]

theorem downLoop_state (l table : List MigRecord) :
    (downLoop l table).2.2 =
      table.filter (fun r => l.all (fun q => r.name ≠ q.name)) := by
  induction l generalizing table with
  | nil => simp [downLoop]
  | cons q rest ih =>
    simp only [downLoop, deleteByName]
    rw [ih, List.filter_filter]
    apply List.filter_congr
    intro r _
    simp [List.all_cons, Bool.and_comm]

/-- **C8.**  Migration rollback order: for every state of the tracking
table with distinct migration names (the `name UNIQUE` constraint) and
a non-empty maximum batch, `down()` selects exactly the records whose
batch equals the maximum batch, processes them in descending order of
name (a descending-sorted permutation of that selection), runs each
module's `down(helper)` and then deletes that record's tracking row (the
event trace alternates `ranDown n, deletedRow n` in processing order),
returns the rolled-back names, and leaves exactly the records of lower
batches in the table. -/
theorem c8_migrator_down (recs : List MigRecord)
    (hnd : (recs.map (·.name)).Nodup) (hpos : maxBatch recs ≠ 0) :
    (migratorDown recs).1 =
      (sortByNameDesc (recs.filter fun r => r.batch = maxBatch recs)).map (·.name) ∧
    (sortByNameDesc (recs.filter fun r => r.batch = maxBatch recs)).Perm
      (recs.filter fun r => r.batch = maxBatch recs) ∧
    ((sortByNameDesc (recs.filter fun r => r.batch = maxBatch recs)).map
      (·.name)).Sorted (fun a b => b ≤ a) ∧
    (migratorDown recs).2.1 =
      ((migratorDown recs).1).flatMap (fun n => [.ranDown n, .deletedRow n]) ∧
    (migratorDown recs).2.2 = recs.filter (fun r => r.batch ≠ maxBatch recs) := by
  have hsel : ∀ q, q ∈ sortByNameDesc (recs.filter fun r => r.batch = maxBatch recs) →
      q ∈ recs ∧ q.batch = maxBatch recs := by
    intro q hq
    unfold sortByNameDesc at hq
    have := (List.perm_insertionSort
      (fun a b : MigRecord => b.name ≤ a.name) _).mem_iff.mp hq
    have hmem := List.mem_filter.mp this
    exact ⟨hmem.1, by simpa using hmem.2⟩
  have hinj : ∀ x ∈ recs, ∀ y ∈ recs, x.name = y.name → x = y :=
    List.inj_on_of_nodup_map hnd
  refine ⟨?_, ?_, ?_, ?_, ?_⟩
  · unfold migratorDown
    rw [if_neg hpos]
    exact downLoop_names _ _
  · exact List.perm_insertionSort _ _
  · have hs := List.sorted_insertionSort
      (fun a b : MigRecord => b.name ≤ a.name)
      (recs.filter fun r => r.batch = maxBatch recs)
    exact List.Pairwise.map (fun x : MigRecord => x.name) (fun a b hab => hab) hs
  · unfold migratorDown
    rw [if_neg hpos]
    rw [downLoop_trace, downLoop_names]
  · unfold migratorDown
    rw [if_neg hpos]
    rw [downLoop_state]
    apply List.filter_congr
    intro r hr
    by_cases hb : r.batch = maxBatch recs
    · have hrf : r ∈ recs.filter fun q => q.batch = maxBatch recs :=
        List.mem_filter.mpr ⟨hr, by simpa using hb⟩
      have hrs : r ∈ sortByNameDesc (recs.filter fun q => q.batch = maxBatch recs) := by
        unfold sortByNameDesc
        exact (List.perm_insertionSort _ _).mem_iff.mpr hrf
      simp only [hb, decide_not]
      rw [List.all_eq_false.mpr ⟨r, hrs, by simp⟩]
      simp
    · simp only [decide_not]
      rw [List.all_eq_true.mpr]
      · simp [hb]
      · intro q hq
        obtain ⟨hqrec, hqb⟩ := hsel q hq
        have : r.name ≠ q.name := by
          intro hname
          exact hb (by rw [hinj r hr q hqrec hname]; exact hqb)
        simp [this]

/-- Witness for `c8_migrator_down` at the concrete tracking table
`c8Records` (batches 1, 2, 2): batch 2 is rolled back, in reverse
lexicographic name order. -/
theorem c8_migrator_down_witness :
    (migratorDown c8Records).1 = ["20240203000000_c", "20240202000000_b"] ∧
    (migratorDown c8Records).2.1 =
      [.ranDown "20240203000000_c", .deletedRow "20240203000000_c",
       .ranDown "20240202000000_b", .deletedRow "20240202000000_b"] ∧
    (migratorDown c8Records).2.2 = [⟨1, "20240101000000_a", 1⟩] := by
  have h := c8_migrator_down c8Records (by decide) (by decide)
  have hsort : (sortByNameDesc (c8Records.filter fun r =>
      r.batch = maxBatch c8Records)).map (fun x => x.name) =
      ["20240203000000_c", "20240202000000_b"] := by
    simp only [c8Records, maxBatch, sortByNameDesc, List.insertionSort,
      List.orderedInsert, List.filter, List.foldr]
    norm_num
    decide
  refine ⟨?_, ?_, ?_⟩
  · rw [h.1]; exact hsort
  · rw [h.2.2.2.1, h.1, hsort]; rfl
  · rw [h.2.2.2.2]; decide

end PawQL

namespace PawQL

/-! ## Claim C9 — count() preserves the builder -/

/-- **C9.**  `count()` preserves the builder: it saves and restores the
projection and operation kind, so when the call completes the builder
state is exactly the original (and a `toSQL()` rendered afterwards is
identical to one rendered before); and the SQL `count()` sends to the
driver is built only from the table, the joins, and the WHERE
predicates — two builders agreeing on those three fields produce the
same count SQL and parameters. -/
theorem c9_count_preserves (b b2 : Builder) (ht : b.table = b2.table)
    (hj : b.joins = b2.joins) (hw : b.whereCs = b2.whereCs) :
    (countRender b).1 = (countRender b2).1 ∧
    (∀ q, (countRender b).1 = some q →
      (countRender b).2 = b ∧ renderB ((countRender b).2) = renderB b) := by
  match b, b2 with
  | .mk t op d sel w j ob gb hv oc fs lim off ret,
    .mk t2 op2 d2 sel2 w2 j2 ob2 gb2 hv2 oc2 fs2 lim2 off2 ret2 =>
    simp only [Builder.table, Builder.joins, Builder.whereCs] at ht hj hw
    subst ht; subst hj; subst hw
    constructor
    · unfold countRender
      simp only [Builder.setSelOp, Builder.whereCs, Builder.table, Builder.joins,
        Builder.selectCols, Builder.operation]
      match hbw : buildWhere w [] with
      | Option.none => rfl
      | some r => rfl
    · intro q hq
      unfold countRender at hq ⊢
      simp only [Builder.setSelOp, Builder.whereCs, Builder.table, Builder.joins,
        Builder.selectCols, Builder.operation] at hq ⊢
      match hbw : buildWhere w [] with
      | Option.none =>
        rw [hbw] at hq
        simp at hq
      | some r =>
        exact ⟨rfl, rfl⟩

/-- Witness for `c9_count_preserves` at `c9BuilderA`/`c9BuilderB`,
which differ in projection, HAVING and LIMIT but agree on table, joins
and WHERE. -/
theorem c9_count_preserves_witness :
    (countRender c9BuilderA).1 = (countRender c9BuilderB).1 ∧
    (countRender c9BuilderA).2 = c9BuilderA := by
  have h := c9_count_preserves c9BuilderA c9BuilderB rfl rfl rfl
  have hsome : ((countRender c9BuilderA).1).isSome = true := by
    simp [c9BuilderA, Builder.init, Builder.whereAdd, countRender, Builder.setSelOp,
      Builder.whereCs, Builder.table, Builder.joins, Builder.selectCols,
      Builder.operation, buildWhere, buildWhereRest, renderCond, WhereOp.render,
      buildJoins]
  obtain ⟨q, hq⟩ := Option.isSome_iff_exists.mp hsome
  exact ⟨h.1, (h.2 q hq).1⟩

/-! ## Claim C10 — first() permanently mutates the limit -/

theorem renderB_select_limit_mem (b : Builder) (hop : b.operation = .select)
    (n : Nat) (hl : b.limit = some n) (s : SQL) (vs : List Val)
    (h : renderB b = some (s, vs)) : SqlTok.text (" LIMIT " ++ toString n) ∈ s := by
  match b with
  | .mk t op d sel w j ob gb hv oc fs lim off ret =>
    simp only [Builder.operation] at hop
    simp only [Builder.limit] at hl
    subst hop
    subst hl
    match fs with
    | Option.none =>
      simp only [renderB] at h
      match h1 : buildWhere w [] with
      | Option.none => rw [h1] at h; simp at h
      | some r1 =>
        rw [h1] at h
        dsimp only at h
        simp only [Option.some.injEq, Prod.mk.injEq] at h
        obtain ⟨rfl, -⟩ := h
        simp [limitTok, List.mem_append]
    | some (.mk sb al) =>
      simp only [renderB] at h
      match hsb : renderB sb with
      | Option.none => rw [hsb] at h; simp at h
      | some r =>
        rw [hsb] at h
        dsimp only at h
        match h1 : buildWhere w (([] : List Val) ++ r.2) with
        | Option.none => rw [h1] at h; simp at h
        | some r1 =>
          rw [h1] at h
          dsimp only at h
          simp only [Option.some.injEq, Prod.mk.injEq] at h
          obtain ⟨rfl, -⟩ := h
          simp [limitTok, List.mem_append]

/-- **C10.**  `first()` permanently mutates the builder's limit: it
sets `_limit = 1` before rendering, so the builder state after the call
has limit 1 even when a different limit had been set earlier, any later
`toSQL()` renders exactly as with limit 1 (for a SELECT, the rendered
SQL contains the `LIMIT 1` fragment), and the call resolves to the
first returned row, or null when the driver returns no rows. -/
theorem c10_first_limit {α : Type} (b : Builder) (n : Nat) (r0 : α) (rest : List α)
    (hop : b.operation = .select) :
    (firstRender (b.setLimit (some n))).2 = b.setLimit (some 1) ∧
    (firstRender (b.setLimit (some n))).1 = renderB (b.setLimit (some 1)) ∧
    firstPick (r0 :: rest) = some r0 ∧
    firstPick ([] : List α) = Option.none ∧
    (∀ s vs, (firstRender (b.setLimit (some n))).1 = some (s, vs) →
      SqlTok.text (" LIMIT " ++ toString 1) ∈ s) := by
  have hset : (b.setLimit (some n)).setLimit (some 1) = b.setLimit (some 1) := by
    match b with
    | .mk t op d sel w j ob gb hv oc fs lim off ret => rfl
  refine ⟨?_, ?_, rfl, rfl, ?_⟩
  · show (b.setLimit (some n)).setLimit (some 1) = b.setLimit (some 1)
    exact hset
  · show renderB ((b.setLimit (some n)).setLimit (some 1)) = renderB (b.setLimit (some 1))
    rw [hset]
  · intro s vs hr
    have hr' : renderB (b.setLimit (some 1)) = some (s, vs) := by
      have : (firstRender (b.setLimit (some n))).1 =
          renderB ((b.setLimit (some n)).setLimit (some 1)) := rfl
      rw [this, hset] at hr
      exact hr
    have hop1 : (b.setLimit (some 1)).operation = .select := by
      match b, hop with
      | .mk t op d sel w j ob gb hv oc fs lim off ret, hop => exact hop
    have hl1 : (b.setLimit (some 1)).limit = some 1 := by
      match b with
      | .mk t op d sel w j ob gb hv oc fs lim off ret => rfl
    exact renderB_select_limit_mem (b.setLimit (some 1)) hop1 1 hl1 s vs hr'

/-- Witness for `c10_first_limit` at the concrete builder
`query("users").limit(50)` and a one-row driver result. -/
theorem c10_first_limit_witness :
    (firstRender ((Builder.init "users").setLimit (some 50))).2 =
      (Builder.init "users").setLimit (some 1) ∧
    firstPick ([42] : List Nat) = some 42 ∧
    firstPick ([] : List Nat) = Option.none := by
  have h := c10_first_limit (Builder.init "users") 50 (42 : Nat) [] rfl
  exact ⟨h.1, h.2.2.1, h.2.2.2.1⟩

end PawQL
